import Mathlib

set_option maxRecDepth 8000

/- Verification of pg-schema-sync: a shallow embedding, in Lean, of the schema
   diff/DDL generator (src/src/pg_schema_sync/__main__.py) and of the parallel
   data-migration engine (src/src/pg_schema_sync/dataMig.py), together with
   theorems settling the specification claims about them.

   Modelling conventions:
   - Python strings are Lean strings (ASCII payloads; the repository's SQL text
     is ASCII).  Python f-strings become string concatenation.
   - Python dicts become association lists `List (String × α)` in insertion
     order; set iteration (`src_keys - tgt_keys`, `intersection`) is modelled
     as iteration over the source list filtered by membership, which fixes one
     of the orders CPython may produce; the claims under study are insensitive
     to that order.
   - Database reads/writes are modelled by passing the read values in and
     returning the written values. -/

namespace PgSchemaSync

/-- Python regex class `\s` / `str.strip` whitespace, restricted to the ASCII
whitespace characters that can occur in this repository's SQL text. -/
def isPySpace (c : Char) : Bool :=
  c == ' ' || c == '\t' || c == '\n' || c == '\r' || c == '\x0b' || c == '\x0c'

/-- Python regex class `\w` (ASCII). -/
def isWordChar (c : Char) : Bool :=
  c.isAlphanum || c == '_'

/-- Python `str.strip()` on a char list. -/
def pyStripChars (l : List Char) : List Char :=
  ((l.dropWhile isPySpace).reverse.dropWhile isPySpace).reverse

/-- Python `str.rstrip()` on a char list. -/
def pyRstripChars (l : List Char) : List Char :=
  (l.reverse.dropWhile isPySpace).reverse

/-- Python `str.strip()`. -/
def pyStrip (s : String) : String :=
  String.mk (pyStripChars s.data)

/-- Python `str.rstrip()`. -/
def pyRstrip (s : String) : String :=
  String.mk (pyRstripChars s.data)

/-- Python `str.rstrip(';')`: drop every trailing semicolon. -/
def pyRstripSemi (l : List Char) : List Char :=
  (l.reverse.dropWhile (· == ';')).reverse

/-- Python `str.lower()` (ASCII). -/
def pyLower (s : String) : String :=
  String.mk (s.data.map Char.toLower)

/-- Python `str.upper()` (ASCII). -/
def pyUpper (s : String) : String :=
  String.mk (s.data.map Char.toUpper)

/-- Python `str.startswith`. -/
def pyStartsWith (s pre : String) : Bool :=
  pre.data.isPrefixOf s.data

/-- Python `str.endswith`.  `List.isSuffixOf` exists but is stated through
reverse anyway, so spell it out. -/
def pyEndsWith (s suf : String) : Bool :=
  suf.data.reverse.isPrefixOf s.data.reverse

/-- Python `sub in s` substring test, on char lists. -/
def containsSub (pat : List Char) : List Char → Bool
  | [] => pat.isPrefixOf []
  | c :: rest => pat.isPrefixOf (c :: rest) || containsSub pat rest

/-- Split a char list on newline characters. -/
def splitNl : List Char → List (List Char)
  | [] => [[]]
  | c :: rest =>
      match splitNl rest with
      | hd :: tl => if c == '\n' then [] :: hd :: tl else (c :: hd) :: tl
      | [] => [[c]]

/-- Python `str.splitlines()` for strings whose only line separator is `\n`
(the only separator the generator emits): split on `\n`, with no trailing
empty entry for a trailing newline and `[]` for the empty string. -/
def pySplitlines (s : String) : List String :=
  if s = "" then []
  else
    let parts := (splitNl s.data).map String.mk
    if parts.getLast? = some "" then parts.dropLast else parts

/-- Index of the first occurrence of `pat` in `cs`, if any (for a nonempty
`pat`; used by regex search with a literal subject). -/
def findSub (pat : List Char) : List Char → Option Nat
  | [] => if pat.isPrefixOf ([] : List Char) then some 0 else none
  | c :: rest =>
      if pat.isPrefixOf (c :: rest) then some 0
      else (findSub pat rest).map (· + 1)

/-- Python `str.replace(old, new)` (all occurrences, scanning left to right and
resuming after each replaced occurrence), for nonempty `old` (the only shape
the source uses; an empty `old` is treated as never matching).  `fuel` bounds
the recursion; every step consumes at least one character, so the initial
fuel `l.length` is always sufficient. -/
def replaceSubF (old new' : List Char) : Nat → List Char → List Char
  | _, [] => []
  | 0, l => l
  | fuel + 1, c :: rest =>
      if !old.isEmpty && old.isPrefixOf (c :: rest) then
        new' ++ replaceSubF old new' fuel ((c :: rest).drop old.length)
      else
        c :: replaceSubF old new' fuel rest

/-- Python `str.replace(old, new)` on char lists. -/
def replaceSub (old new' l : List Char) : List Char :=
  replaceSubF old new' l.length l

/-- Python `sep.join(l)`. -/
def pyJoin (sep : String) : List String → String
  | [] => ""
  | [s] => s
  | s :: rest => s ++ sep ++ pyJoin sep rest

/- ### normalize_sql (src/src/pg_schema_sync/__main__.py lines 1341-1377)

`normalize_sql` protects dollar-quoted strings, strips `--` comments,
lowercases, removes whitespace around two punctuation classes, collapses
whitespace runs, strips, restores the dollar-quoted strings, and removes a
trailing semicolon.  Each regex substitution is rendered as the equivalent
deterministic scan. -/

/-- The regex `(\$([a-zA-Z_]\w*)?\$)` at the head of `cs`: parse a dollar-quote
delimiter.  The tag is a maximal `\w` run starting with a letter or
underscore; no other tag length can match, so the parse is deterministic. -/
def dollarDelim (cs : List Char) : Option (List Char) :=
  match cs with
  | '$' :: rest =>
      let run := rest.takeWhile isWordChar
      if run.isEmpty then
        match rest with
        | '$' :: _ => some ['$', '$']
        | _ => none
      else if (match run with | c :: _ => c.isAlpha || c == '_' | [] => false) then
        match rest.drop run.length with
        | '$' :: _ => some ('$' :: run ++ ['$'])
        | _ => none
      else none
  | _ => none

/-- Placeholder text `__DOLLAR_QUOTED_STRING_{i}__`. -/
def dollarPlaceholder (i : Nat) : List Char :=
  ("__DOLLAR_QUOTED_STRING_" ++ toString i ++ "__").data

/-- `re.sub(r"(\$([a-zA-Z_]\w*)?\$).*?\1", repl, s, flags=DOTALL)` with a
side list of the extracted matches: leftmost match, shortest body (`.*?`),
scanning resumes after each replacement.  `fuel` only bounds the recursion;
`cs.length + 1` is always sufficient since every step consumes input. -/
def dollarPass (fuel : Nat) (cs acc : List Char) (found : List (List Char)) :
    List Char × List (List Char) :=
  match fuel with
  | 0 => (acc ++ cs, found)
  | fuel' + 1 =>
    match cs with
    | [] => (acc, found)
    | c :: rest =>
      match dollarDelim (c :: rest) with
      | some d =>
          match findSub d ((c :: rest).drop d.length) with
          | some k =>
              let len := d.length + k + d.length
              dollarPass fuel' ((c :: rest).drop len)
                (acc ++ dollarPlaceholder found.length)
                (found ++ [(c :: rest).take len])
          | none => dollarPass fuel' rest (acc ++ [c]) found
      | none => dollarPass fuel' rest (acc ++ [c]) found

/-- Inside `re.sub(r'--.*$', '', s, flags=MULTILINE)`: drop characters up to,
but not including, the next newline (`.` does not match `\n`, so the newline
survives the substitution). -/
def dropLineRest : List Char → List Char
  | [] => []
  | c :: rest => if c == '\n' then c :: rest else dropLineRest rest

/-- Fuelled comment-stripping scan; every step consumes at least one
character, so fuel `l.length` is always sufficient. -/
def stripLineCommentsF : Nat → List Char → List Char
  | _, [] => []
  | 0, l => l
  | fuel + 1, '-' :: '-' :: rest2 => stripLineCommentsF fuel (dropLineRest rest2)
  | fuel + 1, c :: rest => c :: stripLineCommentsF fuel rest

def stripLineComments (l : List Char) : List Char :=
  stripLineCommentsF l.length l

/-- First punctuation class, regex `[(),;]`. -/
def isPunct1 (c : Char) : Bool :=
  c == '(' || c == ')' || c == ',' || c == ';'

/-- Second punctuation class: the regex class of `=`, `<`, `>`, `!`, `+`, `-`,
`/`, `*`, `%` as written in the source, where `+` to `/` is a character range
and therefore also covers `,` and `.`. -/
def isPunct2 (c : Char) : Bool :=
  c == '=' || c == '<' || c == '>' || c == '!' || c == '+' || c == ',' ||
  c == '-' || c == '.' || c == '/' || c == '*' || c == '%'

/-- `re.sub(r'\s*([P])\s*', r'\1', s)` for a punctuation class `P`: delete
every whitespace run adjacent to a `P` character.  `prevP` records whether the
last emitted character was in `P`; `buf` holds a pending whitespace run. -/
def stripWsAround (isP : Char → Bool) (prevP : Bool) (buf : List Char) :
    List Char → List Char
  | [] => if prevP then [] else buf
  | c :: rest =>
      if isPySpace c then stripWsAround isP prevP (buf ++ [c]) rest
      else if isP c then c :: stripWsAround isP true [] rest
      else (if prevP then [] else buf) ++ c :: stripWsAround isP false [] rest

/-- `re.sub(r'\s+', ' ', s)`: collapse whitespace runs to single spaces. -/
def collapseWs (prevSpace : Bool) : List Char → List Char
  | [] => []
  | c :: rest =>
      if isPySpace c then
        (if prevSpace then [] else [' ']) ++ collapseWs true rest
      else c :: collapseWs false rest

/-- `normalize_sql` (lines 1341-1377).  Note the restoration step searches for
the uppercase placeholder in the lowercased text, exactly as the source does
(so a protected dollar-quoted body is in fact never restored); none of the
claims' inputs contain `$`. -/
def normalize_sql (sql_text : String) : String :=
  if sql_text = "" then ""
  else
    let cs := sql_text.data
    let p := dollarPass (cs.length + 1) cs [] []
    let s1 := stripLineComments p.1
    let s2 := s1.map Char.toLower
    let s3 := stripWsAround isPunct1 false [] s2
    let s4 := stripWsAround isPunct2 false [] s3
    let s5 := collapseWs false s4
    let s6 := pyStripChars s5
    let s7 := p.2.enum.foldl
      (fun acc iorig => replaceSub (dollarPlaceholder iorig.1) iorig.2 acc) s6
    String.mk (pyRstripSemi s7)

/- ### is_safe_type_change (lines 961-988) -/

/-- `re.search(r'\((\d+)\)', s)`: first `(` followed by one or more digits and
a `)`; returns the captured number. -/
def searchParenDigits : List Char → Option Nat
  | [] => none
  | c :: rest =>
      if c == '(' then
        let ds := rest.takeWhile Char.isDigit
        if ds.isEmpty then searchParenDigits rest
        else
          match rest.drop ds.length with
          | ')' :: _ => some (ds.foldl (fun n d => n * 10 + (d.toNat - '0'.toNat)) 0)
          | _ => searchParenDigits rest
      else searchParenDigits rest

/-- `new_len >= old_len` where a missing length is `float('inf')`. -/
def lenGe (newLen oldLen : Option Nat) : Bool :=
  match newLen, oldLen with
  | _, none => newLen.isNone
  | none, some _ => true
  | some a, some b => decide (b ≤ a)

/-- `is_safe_type_change(old_type, new_type)` (lines 961-988).  The
`try/except` around the length parse cannot fail (the regex only captures
digits), so it is not modelled. -/
def is_safe_type_change (old_type new_type : String) : Bool :=
  let o := normalize_sql old_type
  let n := normalize_sql new_type
  if pyStartsWith o "character varying" &&
      (pyStartsWith n "character varying" || n == "text") then
    lenGe (searchParenDigits n.data) (searchParenDigits o.data) || n == "text"
  else if o == "smallint" && (n == "integer" || n == "bigint") then true
  else if o == "integer" && n == "bigint" then true
  else if (o == "smallint" || o == "integer" || o == "bigint" || o == "numeric" ||
      o == "real" || o == "double precision") &&
      (pyStartsWith n "character varying" || n == "text") then true
  else false

/- ### Data model (fetch_tables_metadata, lines 128-313)

`fetch_tables_metadata` returns, per table, a list of column dicts with keys
`name`, `type`, `nullable`, `default`, `identity` and optional `foreign_key`,
`unique`, `primary_key`; plus composite-unique, composite-primary and
foreign-key constraint dictionaries.  They are rendered as records; the
optional dict keys become fields whose absence is the `.get` default used at
every access site (`identity`/`unique`/`primary_key` default `False`,
`foreign_key` default `None`). -/

/-- A single-column foreign-key reference recorded on a column
(`col_data['foreign_key']`, lines 228-233). -/
structure FKRef where
  table : String
  column : String
  on_delete : String
  on_update : String
  deriving Repr, DecidableEq

/-- One column's metadata dict (lines 294-300). -/
structure Column where
  name : String
  type : String
  nullable : Bool
  default : Option String
  identity : Bool
  foreign_key : Option FKRef
  unique : Bool
  primary_key : Bool
  deriving Repr, DecidableEq

/-- A foreign-key constraint entry of `composite_fks_final` (lines 217-224);
single- and multi-column constraints share this shape. -/
structure FKInfo where
  constraint_name : String
  columns : List String
  ref_table : String
  ref_columns : List String
  on_delete : String
  on_update : String
  deriving Repr, DecidableEq

/-- Python dict write `d[k] = v`: replace in place if the key exists,
otherwise append (insertion order preserved). -/
def dictPut {α : Type} (d : List (String × α)) (k : String) (v : α) :
    List (String × α) :=
  match d with
  | [] => [(k, v)]
  | (k', v') :: rest =>
      if k' == k then (k', v) :: rest else (k', v') :: dictPut rest k v

/-- Python dict read `d.get(k)` / `k in d` support: first binding wins (keys
are unique by construction via `dictPut`). -/
def dictGet? {α : Type} (d : List (String × α)) (k : String) : Option α :=
  match d with
  | [] => none
  | (k', v) :: rest => if k' == k then some v else dictGet? rest k

/-- Python `k in d`. -/
def dictMem {α : Type} (d : List (String × α)) (k : String) : Bool :=
  (dictGet? d k).isSome

/-- Python `d.keys()` in insertion order. -/
def dictKeys {α : Type} (d : List (String × α)) : List String :=
  d.map Prod.fst

/- ### generate_create_table_ddl (lines 407-503) -/

/-- The three hard-coded `DO $$ ... END$$;` enum-guard blocks of
`generate_create_table_ddl` (lines 427-453). -/
def optionTypeDoBlock : String :=
  "DO $$\nBEGIN\n  IF NOT EXISTS (SELECT 1 FROM pg_type WHERE typname = 'option_type') THEN\n    CREATE TYPE public.option_type AS ENUM ('additional', 'substitution');\n  END IF;\nEND$$;"

def onboardingStatusDoBlock : String :=
  "DO $$\nBEGIN\n  IF NOT EXISTS (SELECT 1 FROM pg_type WHERE typname = 'p2_onboarding_status') THEN\n    CREATE TYPE public.p2_onboarding_status AS ENUM ('NOT_STARTED', 'STEP1', 'STEP2', 'STEP3', 'COMPLETED');\n  END IF;\nEND$$;"

def orderStatusDoBlock : String :=
  "DO $$\nBEGIN\n  IF NOT EXISTS (SELECT 1 FROM pg_type WHERE typname = 'order_status') THEN\n    CREATE TYPE public.order_status AS ENUM ('new', 'accepted', 'canceled', 'banned', 'cooking', 'pickup', 'prepayment', 'done');\n  END IF;\nEND$$;"

/-- The per-column branch of `generate_create_table_ddl` (lines 418-482):
returns the possibly rewritten column type, any emitted enum-guard DDL, and
the inline column definition. -/
def columnDefOf (table_name : String) (col : Column) : List String × String :=
  let quoted_col_name := "\"" ++ col.name ++ "\""
  let userDefined := pyUpper col.type == "USER-DEFINED"
  let (col_type, enum_ddls) :=
    if userDefined then
      if (table_name == "menu_item_opts_set_schema" || table_name == "menu_item_opts_schema" ||
          table_name == "cur_option_set_schema") && col.name == "type" then
        ("public.option_type", [optionTypeDoBlock])
      else if table_name == "menu" && col.name == "onboarding_status" then
        ("public.p2_onboarding_status", [onboardingStatusDoBlock])
      else if (table_name == "order_menu_items" || table_name == "order_payments" ||
          table_name == "orders") && col.name == "status" then
        ("public.order_status", [orderStatusDoBlock])
      else
        ("text", [])
    else (col.type, [])
  let col_def :=
    if col.identity && col.primary_key then
      quoted_col_name ++ " BIGINT GENERATED BY DEFAULT AS IDENTITY PRIMARY KEY"
    else
      let d0 := quoted_col_name ++ " " ++ col_type
      let d1 := if col.identity then d0 ++ " GENERATED BY DEFAULT AS IDENTITY" else d0
      let d2 :=
        match col.default with
        | some dv => if containsSub "nextval(".data dv.data then d1 else d1 ++ " DEFAULT " ++ dv
        | none => d1
      let d3 := if !col.nullable then d2 ++ " NOT NULL" else d2
      let d4 := if col.unique then d3 ++ " UNIQUE" else d3
      if col.primary_key then d4 ++ " PRIMARY KEY" else d4
  (enum_ddls, col_def)

/-- `generate_create_table_ddl` (lines 407-503).  `composite_uniques` maps a
table to its `(constraint_name, columns)` pairs, `composite_primaries` maps a
table to its primary-key column list. -/
def generate_create_table_ddl (table_name : String) (columns : List Column)
    (composite_uniques : List (String × List (String × List String)))
    (composite_primaries : List (String × List String)) : String :=
  let per_col := columns.map (columnDefOf table_name)
  let enum_ddls := (per_col.map Prod.fst).flatten
  let col_defs := per_col.map Prod.snd
  let unique_constraints :=
    match dictGet? composite_uniques table_name with
    | some entries =>
        entries.map (fun nc =>
          "CONSTRAINT \"" ++ nc.1 ++ "\" UNIQUE (" ++
            pyJoin ", " (nc.2.map (fun c => "\"" ++ c ++ "\"")) ++ ")")
    | none => []
  let primary_constraints :=
    match dictGet? composite_primaries table_name with
    | some cols =>
        ["CONSTRAINT " ++ table_name ++ "_pkey PRIMARY KEY (" ++
          pyJoin ", " (cols.map (fun c => "\"" ++ c ++ "\"")) ++ ")"]
    | none => []
  let table_constraints := unique_constraints ++ primary_constraints
  let all_defs := col_defs ++ table_constraints
  let table_ddl :=
    "CREATE TABLE public.\"" ++ table_name ++ "\" (\n    " ++
      pyJoin ",\n    " all_defs ++ "\n);"
  pyJoin "\n\n" (enum_ddls ++ [table_ddl])

/- ### extract_foreign_keys (lines 1408-1471) -/

/-- `get_fk_action` (lines 1415-1424): PostgreSQL constraint action codes. -/
def get_fk_action (action_code : String) : String :=
  if action_code == "a" then "NO ACTION"
  else if action_code == "r" then "RESTRICT"
  else if action_code == "c" then "CASCADE"
  else if action_code == "n" then "SET NULL"
  else if action_code == "d" then "SET DEFAULT"
  else "NO ACTION"

/-- The constraint key `extract_foreign_keys` builds for one FK
(lines 1438-1446). -/
def fkConstraintKey (table_name : String) (fk : FKInfo) : String :=
  match fk.columns, fk.ref_columns with
  | [c], [rc] => table_name ++ "." ++ c ++ "->" ++ fk.ref_table ++ "." ++ rc
  | cols, rcols =>
      table_name ++ ".(" ++ pyJoin "," cols ++ ")->" ++ fk.ref_table ++ ".(" ++
        pyJoin "," rcols ++ ")"

/-- The `ALTER TABLE ... ADD CONSTRAINT` DDL `extract_foreign_keys` builds for
one FK (lines 1448-1468). -/
def fkDdl (table_name : String) (fk : FKInfo) : String :=
  let quoted_cols := pyJoin ", " (fk.columns.map (fun c => "\"" ++ c ++ "\""))
  let quoted_ref_cols := pyJoin ", " (fk.ref_columns.map (fun c => "\"" ++ c ++ "\""))
  let ddl_parts :=
    ["ALTER TABLE public.\"" ++ table_name ++ "\"",
     "ADD CONSTRAINT \"" ++ fk.constraint_name ++ "\"",
     "FOREIGN KEY (" ++ quoted_cols ++ ")",
     "REFERENCES public.\"" ++ fk.ref_table ++ "\" (" ++ quoted_ref_cols ++ ")"]
  let on_delete_action := get_fk_action fk.on_delete
  let on_update_action := get_fk_action fk.on_update
  let ddl_parts := if on_delete_action != "NO ACTION" then
      ddl_parts ++ ["ON DELETE " ++ on_delete_action] else ddl_parts
  let ddl_parts := if on_update_action != "NO ACTION" then
      ddl_parts ++ ["ON UPDATE " ++ on_update_action] else ddl_parts
  pyJoin " " ddl_parts ++ ";"

/-- `extract_foreign_keys(metadata, composite_fks)` (lines 1408-1471).  The
`metadata` argument is unused by the source body; every FK comes from
`composite_fks`. -/
def extract_foreign_keys (composite_fks : List (String × List FKInfo)) :
    List (String × String) :=
  composite_fks.foldl
    (fun fk_map entry =>
      entry.2.foldl
        (fun fk_map fk => dictPut fk_map (fkConstraintKey entry.1 fk) (fkDdl entry.1 fk))
        fk_map)
    []

/- ### add_not_valid_constraint (lines 1473-1480) -/

/-- `add_not_valid_constraint(ddl)`. -/
def add_not_valid_constraint (ddl : String) : String :=
  if containsSub "NOT VALID".data (pyUpper ddl).data then ddl
  else if pyEndsWith (pyRstrip ddl) ";" then
    String.mk (pyRstrip ddl).data.dropLast ++ " NOT VALID;"
  else pyRstrip ddl ++ " NOT VALID"

/- ### build_fk_validate_statements (lines 1482-1500)

The compiled pattern is written
`r'ALTER\\s+TABLE\\s+public\\."?([^"\\s]+)"?\\s+ADD\\s+CONSTRAINT\\s+"?([^"\\s]+)"?'`
— a *raw* string, so each `\\` is a literal backslash: the regex matches
`ALTER`, then a literal backslash, then one or more `s` (case-insensitive),
then `TABLE`, another literal backslash, and so on.  The matcher below
implements exactly that pattern. -/

/-- Case-insensitive literal match at the head of `cs`, returning the rest. -/
def litCI : List Char → List Char → Option (List Char)
  | [], cs => some cs
  | _, [] => none
  | p :: ps, c :: cs => if p.toLower == c.toLower then litCI ps cs else none

/-- One literal backslash. -/
def oneBackslash : List Char → Option (List Char)
  | '\\' :: rest => some rest
  | _ => none

/-- `s+` under IGNORECASE: one or more `s`/`S`.  The following pattern
element is never `s`-like, so the greedy consumption needs no backtracking. -/
def plusS : List Char → Option (List Char)
  | c :: rest =>
      if c == 's' || c == 'S' then some (rest.dropWhile (fun d => d == 's' || d == 'S'))
      else none
  | [] => none

/-- `[^"\s]+` under IGNORECASE in the raw-string pattern, i.e. one or more
characters other than `"`, `\` and `s`/`S` (greedy; terminated by one of the
excluded characters, so no backtracking is possible). -/
def plusNotQuoteBackslashS (cs : List Char) : Option (List Char × List Char) :=
  let bad := fun (c : Char) => c == '"' || c == '\\' || c == 's' || c == 'S'
  match cs with
  | c :: rest =>
      if bad c then none
      else some (c :: rest.takeWhile (fun d => !bad d), rest.dropWhile (fun d => !bad d))
  | [] => none

/-- `"?` followed by a mandatory literal backslash: since the capture group
cannot contain `"` or `\`, the only successful continuations are `"\` or
`\`. -/
def optQuoteThenBackslash : List Char → Option (List Char)
  | c :: rest =>
      if c == '"' then
        match rest with
        | c2 :: rest2 => if c2 == '\\' then some rest2 else none
        | [] => none
      else if c == '\\' then some rest
      else none
  | [] => none

/-- `"?`: optionally consume one double quote. -/
def optQuote : List Char → List Char
  | '"' :: rest => rest
  | l => l

/-- Run a sequence of pattern elements left to right. -/
def runSteps (steps : List (List Char → Option (List Char))) (cs : List Char) :
    Option (List Char) :=
  match steps with
  | [] => some cs
  | f :: fs =>
      match f cs with
      | none => none
      | some r => runSteps fs r

/-- Pattern elements before the first capture group:
`ALTER \ s+ TABLE \ s+ public \ .` (with literal backslashes). -/
def fkPatternHead : List (List Char → Option (List Char)) :=
  [litCI "ALTER".data, oneBackslash, plusS,
   litCI "TABLE".data, oneBackslash, plusS,
   litCI "public".data, oneBackslash, litCI ".".data]

/-- Pattern elements between the two capture groups:
`s+ ADD \ s+ CONSTRAINT \ s+` (the backslash right after the first group is
consumed by `optQuoteThenBackslash`). -/
def fkPatternMid : List (List Char → Option (List Char)) :=
  [plusS, litCI "ADD".data, oneBackslash, plusS,
   litCI "CONSTRAINT".data, oneBackslash, plusS]

/-- Attempt the (broken) validate-statement pattern at the head of `cs`. -/
def brokenFkPatternAt (cs : List Char) : Option (String × String) :=
  match runSteps fkPatternHead cs with
  | none => none
  | some r =>
      match plusNotQuoteBackslashS (optQuote r) with
      | none => none
      | some g1 =>
          match optQuoteThenBackslash g1.2 with
          | none => none
          | some r' =>
              match runSteps fkPatternMid r' with
              | none => none
              | some r'' =>
                  match plusNotQuoteBackslashS (optQuote r'') with
                  | none => none
                  | some g2 => some (String.mk g1.1, String.mk g2.1)

/-- `pattern.search`: try the pattern at every position, leftmost first. -/
def searchBrokenFkPattern : List Char → Option (String × String)
  | [] => none
  | c :: rest =>
      match brokenFkPatternAt (c :: rest) with
      | some g => some g
      | none => searchBrokenFkPattern rest

/-- `build_fk_validate_statements(migration_sql_blocks)` (lines 1482-1500):
for each block, drop `--` comment lines, search the (broken) pattern, and on a
match emit one `VALIDATE CONSTRAINT` statement. -/
def build_fk_validate_statements (migration_sql_blocks : List String) : List String :=
  migration_sql_blocks.foldl
    (fun validate_sql block =>
      let sql_content :=
        pyJoin "\n" ((pySplitlines block).filter
          (fun line => !(pyStartsWith (pyStrip line) "--")))
      match searchBrokenFkPattern sql_content.data with
      | none => validate_sql
      | some tc =>
          validate_sql ++
            ["ALTER TABLE public.\"" ++ tc.1 ++ "\" VALIDATE CONSTRAINT \"" ++ tc.2 ++ "\";"])
    []

/- ### compare_and_generate_migration (lines 990-1337)

The per-category data values: table metadata is a column list, enum data is a
sorted value list, every other category carries a DDL string.  Accessing the
wrong shape would be a Python `TypeError`; the accessors return inert defaults
that are never exercised by well-shaped inputs. -/

inductive ObjData where
  | table (cols : List Column)
  | enumVals (vals : List String)
  | ddl (s : String)
  deriving Repr, DecidableEq

def ObjData.getCols : ObjData → List Column
  | .table cs => cs
  | _ => []

def ObjData.getVals : ObjData → List String
  | .enumVals v => v
  | _ => []

def ObjData.getStr : ObjData → String
  | .ddl s => s
  | _ => ""

/-- `'\n'.join(f"-- {line}" for line in ddl.strip().splitlines())`
(lines 1227, 1260, 1288, 1332). -/
def commentedLines (ddl : String) : String :=
  pyJoin "\n" ((pySplitlines (pyStrip ddl)).map (fun line => "-- " ++ line))

/-- `re.search(r'RESTART WITH (\d+)', s)`: the digit string captured at the
first position where the literal `RESTART WITH ` is followed by a digit. -/
def searchRestartWith : List Char → Option String
  | [] => none
  | c :: rest =>
      if "RESTART WITH ".data.isPrefixOf (c :: rest) then
        if (((c :: rest).drop "RESTART WITH ".length).takeWhile Char.isDigit).isEmpty then
          searchRestartWith rest
        else some (String.mk (((c :: rest).drop "RESTART WITH ".length).takeWhile Char.isDigit))
      else searchRestartWith rest

/-- The stripped `DO $$ ... END$$;` guard for a source-only sequence
(lines 1039-1051), interpolations and inner indentation reproduced
verbatim. -/
def seqExistsDoBlock (name restart_value : String) : String :=
  "DO $$\n                        BEGIN\n                            -- 시퀀스가 존재하면 값만 업데이트\n                            IF EXISTS (\n                                SELECT 1 FROM pg_class c \n                                JOIN pg_namespace n ON c.relnamespace = n.oid \n                                WHERE n.nspname = 'public' AND c.relkind = 'S' AND c.relname = '" ++
    name ++
    "'\n                            ) THEN\n                                ALTER SEQUENCE public." ++
    name ++
    " RESTART WITH " ++
    restart_value ++
    ";\n                            END IF;\n                        END$$;"

/-- The stripped index-existence guard for a source-only index
(lines 1057-1066). -/
def indexDoBlockSrcOnly (name raw_ddl : String) : String :=
  "DO $$\n                    BEGIN\n                        IF NOT EXISTS (\n                            SELECT 1 FROM pg_indexes WHERE schemaname = 'public' AND indexname = '" ++
    name ++
    "'\n                        ) THEN\n                            " ++
    raw_ddl ++
    ";\n                        END IF;\n                    END$$;"

/-- The stripped index-existence guard in the (dead) `name not in tgt_data`
branch of the common loop (lines 1200-1209). -/
def indexDoBlockCommonMissing (name ddl : String) : String :=
  "DO $$\n                        BEGIN\n                            IF NOT EXISTS (\n                                SELECT 1 FROM pg_indexes WHERE schemaname = 'public' AND indexname = '" ++
    name ++
    "'\n                            ) THEN\n                                " ++
    ddl ++
    ";\n                            END IF;\n                        END$$;"

/-- The stripped index-existence guard for a differing common index
(lines 1215-1224). -/
def indexDoBlockCommonDiffers (name ddl : String) : String :=
  "DO $$\n                            BEGIN\n                                IF NOT EXISTS (\n                                    SELECT 1 FROM pg_indexes WHERE schemaname = 'public' AND indexname = '" ++
    name ++
    "'\n                                ) THEN\n                                    " ++
    ddl ++
    ";\n                                END IF;\n                            END$$;"

/-- The mutable lists of `compare_and_generate_migration`: the two result
lists, the function-scoped `alter_statements` list (note: *not* reset between
tables except where the source explicitly reassigns it), and the
`processed_sequences` tracking set. -/
structure CmpState where
  migration_sql : List String
  skipped_sql : List String
  alter_statements : List String
  processed_sequences : List String
  deriving Repr, DecidableEq

/-- The per-common-column comparison loop (lines 1104-1134): walks
`cols_to_compare`, appending `ALTER` statements to the running
`alter_statements` list, stopping with `needs_recreate = True` at the first
unsafe type change (or, without ALTER mode, at the first type/nullability
difference). -/
def compareColsLoop (name : String) (use_alter : Bool)
    (src_cols_map tgt_cols_map : List (String × Column)) (alters : List String) :
    List String → List String × Bool
  | [] => (alters, false)
  | col_name :: rest =>
      match dictGet? src_cols_map col_name, dictGet? tgt_cols_map col_name with
      | some src_col, some tgt_col =>
          let src_type_norm := normalize_sql src_col.type
          let tgt_type_norm := normalize_sql tgt_col.type
          if src_type_norm != tgt_type_norm then
            if use_alter && is_safe_type_change tgt_type_norm src_type_norm then
              compareColsLoop name use_alter src_cols_map tgt_cols_map
                (alters ++ ["ALTER TABLE public." ++ name ++ " ALTER COLUMN \"" ++
                  col_name ++ "\" TYPE " ++ src_col.type ++ ";"]) rest
            else (alters, true)
          else if src_col.nullable != tgt_col.nullable then
            if use_alter then
              if src_col.nullable == false then
                compareColsLoop name use_alter src_cols_map tgt_cols_map
                  (alters ++
                    ["-- WARNING: Setting NOT NULL on column " ++ col_name ++
                      " may fail if existing data contains NULLs.",
                     "ALTER TABLE public." ++ name ++ " ALTER COLUMN \"" ++ col_name ++
                      "\" SET NOT NULL;"]) rest
              else
                compareColsLoop name use_alter src_cols_map tgt_cols_map
                  (alters ++
                    ["ALTER TABLE public." ++ name ++ " ALTER COLUMN \"" ++ col_name ++
                      "\" DROP NOT NULL;"]) rest
            else (alters, true)
          else
            compareColsLoop name use_alter src_cols_map tgt_cols_map alters rest
      | _, _ =>
          -- unreachable: `cols_to_compare` names are in both maps
          compareColsLoop name use_alter src_cols_map tgt_cols_map alters rest

/-- The ordinal-position table comparison used when ALTER mode is off
(lines 1180-1184). -/
def zipColsDiffer (srcCols tgtCols : List Column) : Bool :=
  (srcCols.zip tgtCols).any (fun p =>
    p.1.name != p.2.name ||
    normalize_sql p.1.type != normalize_sql p.2.type ||
    p.1.nullable != p.2.nullable)

/-- The `obj_type == "TABLE"` body of the common loop (lines 1085-1196) plus
the shared emission block as it applies to tables (lines 1312-1333). -/
def tableCommonStep (name : String) (srcCols tgtCols : List Column) (use_alter : Bool)
    (src_composite_uniques : List (String × List (String × List String)))
    (src_composite_primaries : List (String × List String)) (st : CmpState) : CmpState :=
  let src_cols_map := srcCols.foldl (fun m c => dictPut m c.name c) []
  let tgt_cols_map := tgtCols.foldl (fun m c => dictPut m c.name c) []
  let src_col_names := dictKeys src_cols_map
  let cols_to_add := src_col_names.filter (fun n => !(dictMem tgt_cols_map n))
  let cols_to_drop := (dictKeys tgt_cols_map).filter (fun n => !(dictMem src_cols_map n))
  let cols_to_compare := src_col_names.filter (fun n => dictMem tgt_cols_map n)
  let needs_recreate0 := cols_to_compare.isEmpty && (!cols_to_add.isEmpty || !cols_to_drop.isEmpty)
  let loopRes :=
    if needs_recreate0 then (st.alter_statements, true)
    else compareColsLoop name use_alter src_cols_map tgt_cols_map st.alter_statements cols_to_compare
  let alters1 := loopRes.1
  let needs_recreate := needs_recreate0 || loopRes.2
  -- add/drop-column phase (lines 1137-1165)
  let phase2 :=
    if !needs_recreate && use_alter then
      let altersA := alters1 ++ cols_to_add.flatMap (fun col_name =>
        match dictGet? src_cols_map col_name with
        | some col =>
            let default_clause := match col.default with
              | some d => " DEFAULT " ++ d
              | none => ""
            let not_null_clause := if !col.nullable then " NOT NULL" else ""
            ["ALTER TABLE public." ++ name ++ " ADD COLUMN \"" ++ col_name ++ "\" " ++
              col.type ++ default_clause ++ not_null_clause ++ ";"]
        | none => [])
      let altersB := altersA ++ cols_to_drop.flatMap (fun col_name =>
        ["-- WARNING: Dropping column " ++ col_name ++ " may cause data loss.",
         "ALTER TABLE public." ++ name ++ " DROP COLUMN \"" ++ col_name ++ "\";"])
      if !altersB.isEmpty then
        (st.migration_sql ++
          ["-- ALTER TABLE " ++ name ++ " for column changes\n" ++ pyJoin "\n" altersB ++ "\n"],
         altersB, true)
      else (st.migration_sql, altersB, false)
    else (st.migration_sql, alters1, false)
  let migration1 := phase2.1
  let alters2 := phase2.2.1
  let are_different1 := phase2.2.2
  -- final recreate decision (lines 1169-1196) and emission (lines 1312-1333)
  if needs_recreate then
    let ddl := generate_create_table_ddl name srcCols src_composite_uniques src_composite_primaries
    { st with
      migration_sql := migration1 ++
        ["-- TABLE " ++ name ++ " differs significantly. Recreating.\nDROP TABLE IF EXISTS public." ++
          name ++ " CASCADE;\n" ++ ddl ++ "\n"],
      alter_statements := [] }
  else if !use_alter &&
      (src_cols_map.length != tgt_cols_map.length || zipColsDiffer srcCols tgtCols) then
    let ddl := generate_create_table_ddl name srcCols src_composite_uniques src_composite_primaries
    { st with
      migration_sql := migration1 ++
        ["-- TABLE " ++ name ++ " differs significantly. Recreating.\nDROP TABLE IF EXISTS public." ++
          name ++ " CASCADE;\n" ++ ddl ++ "\n"],
      alter_statements := [] }
  else if are_different1 then
    -- ALTER block already appended; the emission block adds nothing more
    { st with migration_sql := migration1, alter_statements := alters2 }
  else if alters2.isEmpty then
    -- unchanged: skip entries (lines 1315-1333)
    let original_ddl :=
      generate_create_table_ddl name srcCols src_composite_uniques src_composite_primaries
    let skipped1 := st.skipped_sql ++ ["-- TABLE " ++ name ++ " is up-to-date; skipping.\n"]
    let skipped2 :=
      if original_ddl != "" then skipped1 ++ [commentedLines original_ddl ++ "\n"] else skipped1
    { st with migration_sql := migration1, skipped_sql := skipped2, alter_statements := alters2 }
  else
    -- `are_different` is false but leftover alter statements suppress the skip entry
    { st with migration_sql := migration1, alter_statements := alters2 }

/-- One iteration of the source-only loop (lines 1015-1071). -/
def srcOnlyStep (obj_type : String) (src_enum_ddls : List (String × String))
    (src_composite_uniques : List (String × List (String × List String)))
    (src_composite_primaries : List (String × List String)) (fk_not_valid : Bool)
    (st : CmpState) (name : String) (srcD : ObjData) : CmpState :=
  if obj_type == "SEQUENCE" && st.processed_sequences.contains name then st
  else
    let st :=
      if obj_type == "SEQUENCE" then
        { st with processed_sequences := st.processed_sequences ++ [name] }
      else st
    let ddl :=
      if obj_type == "TABLE" then
        generate_create_table_ddl name srcD.getCols src_composite_uniques src_composite_primaries
      else if obj_type == "TYPE" then
        (dictGet? src_enum_ddls name).getD ("-- ERROR: DDL not found for Enum " ++ name)
      else if obj_type == "SEQUENCE" then
        match searchRestartWith srcD.getStr.data with
        | some restart_value => seqExistsDoBlock name restart_value
        | none => "-- Sequence " ++ name ++ " is auto-generated by table, skipping explicit creation"
      else if obj_type == "INDEX" then
        indexDoBlockSrcOnly name srcD.getStr
      else srcD.getStr
    let ddl := if obj_type == "FOREIGN_KEY" && fk_not_valid then add_not_valid_constraint ddl else ddl
    { st with migration_sql := st.migration_sql ++ ["-- CREATE " ++ obj_type ++ " " ++ name ++ "\n" ++ ddl ++ "\n"] }

/-- One iteration of the both-sides loop (lines 1074-1333). -/
def commonStep (obj_type : String) (src_enum_ddls : List (String × String)) (use_alter : Bool)
    (src_composite_uniques : List (String × List (String × List String)))
    (src_composite_primaries : List (String × List String)) (fk_not_valid : Bool)
    (tgt_data : List (String × ObjData)) (st : CmpState) (name : String) (srcD : ObjData) :
    CmpState :=
  if obj_type == "SEQUENCE" && st.processed_sequences.contains name then st
  else
    let st :=
      if obj_type == "SEQUENCE" then
        { st with processed_sequences := st.processed_sequences ++ [name] }
      else st
    let tgtD := (dictGet? tgt_data name).getD (ObjData.ddl "")
    if obj_type == "TABLE" then
      tableCommonStep name srcD.getCols tgtD.getCols use_alter
        src_composite_uniques src_composite_primaries st
    else if obj_type == "INDEX" then
      if !(dictMem tgt_data name) then
        -- dead branch: the loop only visits names present in both dicts
        { st with migration_sql := st.migration_sql ++
            ["-- INDEX " ++ name ++ " differs or missing. Adding.\n" ++
              indexDoBlockCommonMissing name srcD.getStr ++ "\n"] }
      else if normalize_sql srcD.getStr != normalize_sql tgtD.getStr then
        { st with migration_sql := st.migration_sql ++
            ["-- INDEX " ++ name ++ " differs. Replacing.\n" ++
              indexDoBlockCommonDiffers name srcD.getStr ++ "\n"] }
      else
        { st with skipped_sql := st.skipped_sql ++
            ["-- INDEX " ++ name ++ " is up-to-date; skipping.\n" ++
              commentedLines srcD.getStr ++ "\n"] }
    else if obj_type == "FOREIGN_KEY" then
      let are_different :=
        if !(dictMem tgt_data name) then true
        else normalize_sql srcD.getStr != normalize_sql tgtD.getStr
      if are_different then
        let ddl := srcD.getStr
        let ddl := if fk_not_valid then add_not_valid_constraint ddl else ddl
        { st with migration_sql := st.migration_sql ++
            ["-- FOREIGN_KEY " ++ name ++ " differs or missing. Adding.\n" ++ ddl ++ "\n"] }
      else
        { st with skipped_sql := st.skipped_sql ++
            ["-- FOREIGN_KEY " ++ name ++ " is up-to-date; skipping.\n" ++
              commentedLines srcD.getStr ++ "\n"] }
    else if obj_type == "SEQUENCE" then
      if normalize_sql srcD.getStr != normalize_sql tgtD.getStr then
        match searchRestartWith srcD.getStr.data with
        | some restart_value =>
            { st with migration_sql := st.migration_sql ++
                ["-- ALTER SEQUENCE " ++ name ++ " to sync current value\nALTER SEQUENCE public." ++
                  name ++ " RESTART WITH " ++ restart_value ++ ";\n"] }
        | none =>
            { st with migration_sql := st.migration_sql ++
                ["-- SEQUENCE " ++ name ++ " differs. Recreating.\nDROP SEQUENCE IF EXISTS public." ++
                  name ++ " CASCADE;\n" ++ srcD.getStr ++ "\n"] }
      else
        { st with skipped_sql := st.skipped_sql ++
            ["-- SEQUENCE " ++ name ++ " is up-to-date; skipping.\n" ++
              commentedLines srcD.getStr ++ "\n"] }
    else
      -- TYPE, FUNCTION and the generic else branch (views etc.), followed by
      -- the shared emission block (lines 1304-1333); the FOREIGN_KEY arm of
      -- that block is unreachable because the FK branch `continue`s.
      let diffRes :=
        if obj_type == "TYPE" then
          if srcD.getVals != tgtD.getVals then
            (true, (dictGet? src_enum_ddls name).getD ("-- ERROR: DDL not found for Enum " ++ name))
          else (false, "")
        else if obj_type == "FUNCTION" then
          if srcD.getStr != tgtD.getStr then (true, srcD.getStr) else (false, "")
        else
          if normalize_sql srcD.getStr != normalize_sql tgtD.getStr then (true, srcD.getStr)
          else (false, "")
      if diffRes.1 then
        let action := if obj_type != "FUNCTION" then "Recreating" else "Updating"
        { st with migration_sql := st.migration_sql ++
            ["-- " ++ obj_type ++ " " ++ name ++ " differs. " ++ action ++ ".\nDROP " ++
              pyUpper obj_type ++ " IF EXISTS public." ++ name ++ " CASCADE;\n" ++ diffRes.2 ++ "\n"] }
      else if st.alter_statements.isEmpty then
        let original_ddl :=
          if obj_type == "TYPE" then (dictGet? src_enum_ddls name).getD "" else srcD.getStr
        let skipped1 := st.skipped_sql ++
          ["-- " ++ obj_type ++ " " ++ name ++ " is up-to-date; skipping.\n"]
        let skipped2 :=
          if original_ddl != "" then skipped1 ++ [commentedLines original_ddl ++ "\n"] else skipped1
        { st with skipped_sql := skipped2 }
      else st

/-- `compare_and_generate_migration` (lines 990-1337).  Python's set
iterations (`src_keys - tgt_keys`, `src_keys.intersection(tgt_keys)`) are
modelled as the source dict's insertion order filtered by target membership;
the properties proved below do not depend on that order. -/
def compare_and_generate_migration (src_data tgt_data : List (String × ObjData))
    (obj_type : String) (src_enum_ddls : List (String × String)) (use_alter : Bool)
    (src_composite_uniques : List (String × List (String × List String)))
    (src_composite_primaries : List (String × List String)) (fk_not_valid : Bool) :
    List String × List String :=
  let st0 : CmpState := ⟨[], [], [], []⟩
  let st1 := (src_data.filter (fun nd => !(dictMem tgt_data nd.1))).foldl
    (fun st nd =>
      srcOnlyStep obj_type src_enum_ddls src_composite_uniques src_composite_primaries
        fk_not_valid st nd.1 nd.2)
    st0
  let st2 := (src_data.filter (fun nd => dictMem tgt_data nd.1)).foldl
    (fun st nd =>
      commonStep obj_type src_enum_ddls use_alter src_composite_uniques
        src_composite_primaries fk_not_valid tgt_data st nd.1 nd.2)
    st1
  (st2.migration_sql, st2.skipped_sql)

/- ### dataMig.py: the bulk-insert statement (lines 26-48) -/

/-- The `INSERT` statement `migrate_single_table_with_conn` builds
(dataMig.py lines 26-38): the conflict clause is the fixed literal
`ON CONFLICT (id) DO NOTHING`, independent of the table's columns.  The
triple-quoted f-string's indentation is reproduced verbatim. -/
def migrate_single_table_insert_sql (table_name : String) (column_names : List String) : String :=
  let quoted_column_names := column_names.map (fun col => "\"" ++ col ++ "\"")
  let values_placeholders := pyJoin ", " (column_names.map (fun _ => "%s"))
  let conflict_clause := "ON CONFLICT (id) DO NOTHING"
  "\n                INSERT INTO public.\"" ++ table_name ++ "\" (" ++
    pyJoin ", " quoted_column_names ++ ")\n                VALUES (" ++
    values_placeholders ++ ")\n                " ++ conflict_clause ++
    "\n            "

/- ### dataMig.py: sort_tables_by_fk_dependency (lines 379-442) -/

/-- Ascending code-point comparison on strings (Python `<` on `str`,
restricted to the ASCII identifiers occurring here). -/
def strLtB (a b : String) : Bool :=
  charListLt a.data b.data
where
  charListLt : List Char → List Char → Bool
    | [], [] => false
    | [], _ :: _ => true
    | _ :: _, [] => false
    | x :: xs, y :: ys =>
        if x.toNat < y.toNat then true
        else if y.toNat < x.toNat then false
        else charListLt xs ys

/-- Stable ascending insertion (helper for Python `sorted`). -/
def orderedInsert (x : String) : List String → List String
  | [] => [x]
  | y :: ys => if strLtB x y then x :: y :: ys else y :: orderedInsert x ys

/-- Python `sorted` on a list of strings. -/
def pySorted (l : List String) : List String :=
  l.foldr orderedInsert []

/-- `graph[k]` on the `defaultdict(set)` (an absent key reads as the empty
set). -/
def graphGet (g : List (String × List String)) (k : String) : List String :=
  (dictGet? g k).getD []

/-- `graph[k].add(v)`: set insertion (duplicates ignored). -/
def graphAdd (g : List (String × List String)) (k v : String) :
    List (String × List String) :=
  match dictGet? g k with
  | some l => if l.contains v then g else dictPut g k (l ++ [v])
  | none => g ++ [(k, [v])]

/-- `in_degree[k]` on the `defaultdict(int)`. -/
def degGet (d : List (String × Int)) (k : String) : Int :=
  (dictGet? d k).getD 0

/-- `in_degree.setdefault(k, 0)`. -/
def degSetdefault (d : List (String × Int)) (k : String) : List (String × Int) :=
  if dictMem d k then d else d ++ [(k, 0)]

/-- `in_degree[k] += n` (creating the entry at 0 first, as `defaultdict`
does). -/
def degAdd (d : List (String × Int)) (k : String) (n : Int) : List (String × Int) :=
  dictPut (degSetdefault d k) k (degGet d k + n)

/-- Step 1 of `sort_tables_by_fk_dependency` (lines 385-393): single-column
FKs recorded on columns.  Note the in-degree is incremented once per FK
*column*, while the edge set deduplicates, so two single-column FKs from one
table to the same parent leave a permanent in-degree excess. -/
def fkGraphStep1 (tables_metadata : List (String × List Column)) :
    List (String × List String) × List (String × Int) :=
  tables_metadata.foldl
    (fun gd entry =>
      let gd := (gd.1, degSetdefault gd.2 entry.1)
      entry.2.foldl
        (fun gd col =>
          match col.foreign_key with
          | some fk => (graphAdd gd.1 fk.table entry.1, degAdd gd.2 entry.1 1)
          | none => gd)
        gd)
    ([], [])

/-- Step 2 (lines 396-406): composite FKs, guarded against edges already
present in the graph. -/
def fkGraphStep2 (gd : List (String × List String) × List (String × Int))
    (composite_fks : List (String × List FKInfo)) :
    List (String × List String) × List (String × Int) :=
  composite_fks.foldl
    (fun gd entry =>
      let gd := (gd.1, degSetdefault gd.2 entry.1)
      entry.2.foldl
        (fun gd fk =>
          if (graphGet gd.1 fk.ref_table).contains entry.1 then gd
          else (graphAdd gd.1 fk.ref_table entry.1, degAdd gd.2 entry.1 1))
        gd)
    gd

/-- The Kahn loop (lines 421-431): pop the queue head, release its children
in sorted order, enqueue the newly zero ones.  `fuel` only bounds the
recursion; each node is enqueued at most once, so any fuel beyond the total
number of tracked nodes never runs out. -/
def kahnLoop (g : List (String × List String)) :
    Nat → List String → List (String × Int) → List String →
    List String × List (String × Int)
  | 0, _, deg, sorted_tables => (sorted_tables, deg)
  | _ + 1, [], deg, sorted_tables => (sorted_tables, deg)
  | fuel + 1, current :: rest, deg, sorted_tables =>
      let step := (pySorted (graphGet g current)).foldl
        (fun (qd : List String × List (String × Int)) dependent =>
          let deg' := degAdd qd.2 dependent (-1)
          if degGet deg' dependent == 0 then (qd.1 ++ [dependent], deg')
          else (qd.1, deg'))
        (rest, deg)
      kahnLoop g fuel step.1 step.2 (sorted_tables ++ [current])

/-- `sort_tables_by_fk_dependency(tables_metadata, composite_fks)`
(lines 379-442), returning the key order of the resulting `OrderedDict`
(the dict itself just maps each key back to its metadata). -/
def sort_tables_by_fk_dependency (tables_metadata : List (String × List Column))
    (composite_fks : Option (List (String × List FKInfo))) : List String :=
  let gd1 := fkGraphStep1 tables_metadata
  let gd :=
    match composite_fks with
    | some fks => fkGraphStep2 gd1 fks
    | none => gd1
  let independent_tables :=
    pySorted ((dictKeys tables_metadata).filter (fun t => degGet gd.2 t == 0))
  let res := kahnLoop gd.1 (2 * (tables_metadata.length + gd.2.length) + 1)
    independent_tables gd.2 []
  let sorted_tables := res.1
  if sorted_tables.length < tables_metadata.length then
    let remaining := (dictKeys tables_metadata).filter (fun t => !(sorted_tables.contains t))
    sorted_tables ++ pySorted remaining
  else sorted_tables

/-- The dependency graph and in-degree map `sort_tables_by_fk_dependency`
builds before running Kahn's loop: step 1 over the per-column FKs, then — when
composite FKs are supplied — step 2 over them (lines 383-406). -/
def fkGraph (tables_metadata : List (String × List Column))
    (composite_fks : Option (List (String × List FKInfo))) :
    List (String × List String) × List (String × Int) :=
  match composite_fks with
  | some fks => fkGraphStep2 (fkGraphStep1 tables_metadata) fks
  | none => fkGraphStep1 tables_metadata

/-- `t ∈ graph[p]`: `p` is a recorded parent (referenced table) of `t`. -/
def isParentB (g : List (String × List String)) (p t : String) : Bool :=
  (graphGet g p).contains t

/-- Number of graph entries recording `t` as a dependent (with duplicate-free
graph keys, the number of distinct parents of `t`). -/
def parentsCount (g : List (String × List String)) (t : String) : Nat :=
  (g.filter (fun pc => pc.2.contains t)).length

/-- Number of graph entries recording `t` as a dependent whose key has not yet
been emitted into `s`. -/
def parentsOutside (g : List (String × List String)) (s : List String) (t : String) : Nat :=
  (g.filter (fun pc => pc.2.contains t && !(s.contains pc.1))).length

/-- Index of the first occurrence of `t` (length of the list when absent). -/
def idxOf (t : String) : List String → Nat
  | [] => 0
  | x :: xs => if x == t then 0 else idxOf t xs + 1

/- ### Post-load sequence reconciliation (__main__.py lines 1854-1900 and
verify_sequence_values lines 658-708) -/

/-- The per-identity-column reconciliation step run after data migration
(lines 1877-1895): given the target sequence's `last_value` and the target
table's `COALESCE(MAX(col), 0)`, return the sequence's `last_value` after the
step (`setval(max, true)` only when the sequence trails the data). -/
def reconcile_identity_sequence (tgt_last_value tgt_max_id : Int) : Int :=
  if tgt_last_value == tgt_max_id then tgt_last_value
  else if tgt_last_value > tgt_max_id then tgt_last_value
  else tgt_max_id

/-- The per-sequence step of the explicit (non-identity) sequence sync
(lines 1923-1937, same logic as `sync_sequence_values` lines 904-918): given
source and target `(last_value, is_called)`, return the target's pair after
the step.  `setval(src_last_value, src_is_called)` runs only when the two
`last_value`s differ. -/
def sync_sequence_step (src_last_value tgt_last_value : Int)
    (src_is_called tgt_is_called : Bool) : Int × Bool :=
  if src_last_value != tgt_last_value then (src_last_value, src_is_called)
  else (tgt_last_value, tgt_is_called)

/- ### Process exit status (main, lines 1502-2046) -/

/-- The outcomes that decide how `main()` finishes.  Every error path in
`main` is a plain `return` (lines 1528, 1540, 1545, 1548, 1575, 1578, 1705,
1959) or falls off the end; `run_data_migration_parallel` likewise returns
`None` after merely printing permanently failed tables (dataMig.py lines
367-372), and a failed DDL block only breaks the execution loop (lines
1992-2012).  `sys.exit` is never called, so the interpreter exits with
status 0 in every one of these situations. -/
structure MainScenario where
  skip_fk : Bool
  fk_not_valid : Bool
  config_loads : Bool
  has_source : Bool
  has_targets_gcp_test : Bool
  connect_ok : Bool
  verify : Bool
  with_data : Bool
  commit : Bool
  data_migration_permanent_failures : List String
  schema_block_failure : Bool
  deriving Repr, DecidableEq

/-- Process exit status of one run of the tool, following `main`'s control
flow branch by branch; each `return` yields interpreter exit status 0. -/
def main_exit_code (s : MainScenario) : Nat :=
  if s.skip_fk && s.fk_not_valid then 0
  else if !s.config_loads then 0
  else if !s.has_source then 0
  else if !s.has_targets_gcp_test then 0
  else if !s.connect_ok then 0
  else if s.verify then 0
  else if s.with_data then
    -- includes runs where `data_migration_permanent_failures ≠ []`
    0
  else if s.commit then
    -- includes runs where `schema_block_failure = true`
    0
  else 0

/- ### The three FOREIGN_KEY output shapes of compare_and_generate_migration
(factored from lines 1069-1071, 1254-1257 and 1259-1261). -/

/-- The block appended for a source-only FK (lines 1068-1071). -/
def fkCreateBlock (fk_not_valid : Bool) (name ddl : String) : String :=
  "-- CREATE FOREIGN_KEY " ++ name ++ "\n" ++
    (if fk_not_valid then add_not_valid_constraint ddl else ddl) ++ "\n"

/-- The block appended for a differing common FK (lines 1253-1257). -/
def fkAddBlock (fk_not_valid : Bool) (name ddl : String) : String :=
  "-- FOREIGN_KEY " ++ name ++ " differs or missing. Adding.\n" ++
    (if fk_not_valid then add_not_valid_constraint ddl else ddl) ++ "\n"

/-- The skip entry appended for an up-to-date common FK (lines 1259-1261). -/
def fkSkipBlock (name ddl : String) : String :=
  "-- FOREIGN_KEY " ++ name ++ " is up-to-date; skipping.\n" ++ commentedLines ddl ++ "\n"

/-- `main` passes the FK maps (name → ALTER ... ADD CONSTRAINT text) straight
to `compare_and_generate_migration`; in the embedding each DDL string is
wrapped as `ObjData.ddl`. -/
def wrapFkMap (m : List (String × String)) : List (String × ObjData) :=
  m.map (fun nd => (nd.1, ObjData.ddl nd.2))

/-- The `are_different` test of the common-FK branch (lines 1243-1248), on an
`ObjData` dict. -/
def fkDiffersO (tgt_data : List (String × ObjData)) (nd : String × ObjData) : Bool :=
  if !(dictMem tgt_data nd.1) then true
  else normalize_sql nd.2.getStr != normalize_sql (((dictGet? tgt_data nd.1).getD (ObjData.ddl "")).getStr)

/-- The same `are_different` test on the underlying name → DDL map. -/
def fkDiffers (tgt : List (String × String)) (nd : String × String) : Bool :=
  if !(dictMem tgt nd.1) then true
  else normalize_sql nd.2 != normalize_sql ((dictGet? tgt nd.1).getD "")

/-- The leading line every up-to-date object's skip entry starts with
(lines 1226, 1259, 1287, 1316, and the TABLE arm at 1315-1333). -/
def skipHead (obj_type name : String) : String :=
  "-- " ++ obj_type ++ " " ++ name ++ " is up-to-date; skipping.\n"

/- ### Concrete inputs used by counterexamples and witnesses -/

/-- A foreign-key migration block exactly as the FOREIGN_KEY branch of
`compare_and_generate_migration` emits it — the shape `main` feeds to
`build_fk_validate_statements` in `--fk-not-valid` mode (lines 1769-1770). -/
def fkMigrationBlockExample : String :=
  "-- FOREIGN_KEY orders.user_id->users.id differs or missing. Adding.\nALTER TABLE public.\"orders\" ADD CONSTRAINT \"orders_user_id_fkey\" FOREIGN KEY (\"user_id\") REFERENCES public.\"users\" (\"id\") NOT VALID;\n"

/-- A plain column without flags, for concrete table fixtures. -/
def plainCol (n t : String) (fk : Option FKRef) : Column :=
  { name := n, type := t, nullable := true, default := none, identity := false,
    foreign_key := fk, unique := false, primary_key := false }

/-- Table metadata where `b_mid` holds two single-column foreign keys to the
same parent `p_root`, and `a_kid` references `b_mid`; the FK reference graph
is acyclic (`p_root → b_mid → a_kid` in parent-to-child direction). -/
def doubleFkTables : List (String × List Column) :=
  [("b_mid", [plainCol "p1" "integer" (some ⟨"p_root", "id", "a", "a"⟩),
              plainCol "p2" "integer" (some ⟨"p_root", "id2", "a", "a"⟩)]),
   ("a_kid", [plainCol "m" "integer" (some ⟨"b_mid", "id", "a", "a"⟩)]),
   ("p_root", [plainCol "id" "integer" none])]

/-- The parent-to-child edges of a built dependency graph, as pairs. -/
def graphEdges (g : List (String × List String)) : List (String × String) :=
  g.flatMap (fun pc => pc.2.map (fun c => (pc.1, c)))

/-- A ranking witnessing that `doubleFkTables`' reference graph is acyclic. -/
def doubleFkRank (t : String) : Nat :=
  if t == "p_root" then 0 else if t == "b_mid" then 1 else 2

/-- Decidable certificate that no nonempty proper suffix of `p` can be a
prefix of anything that starts with `lit`. -/
def noCrossR (p lit : List Char) : Bool :=
  (List.range p.length).all (fun k =>
    k == 0 || (!((p.drop k).isPrefixOf lit) && !(lit.isPrefixOf (p.drop k))))

/-- Decidable certificate that no nonempty proper prefix of `p` can be a
suffix of anything that ends with `lit`. -/
def noCrossL (p lit : List Char) : Bool :=
  (List.range p.length).all (fun k =>
    k == 0 || (!((p.take k).isSuffixOf lit) && !(lit.isSuffixOf (p.take k))))

/- ### Substring toolkit

`pat <:+: s` (list containment) renders Python's `pat in s`.  The lemmas
below decompose containment in a concatenation: an occurrence lies in the
left part, in the right part, or straddles the boundary, in which case a
proper prefix of the pattern is a suffix of the left part and the matching
proper suffix of the pattern is a prefix of the right part. -/

theorem isPrefixOfEq {l₁ l₂ : List Char} : l₁.isPrefixOf l₂ = true ↔ l₁ <+: l₂ :=
  List.isPrefixOf_iff_prefix

theorem isSuffixOfEq {l₁ l₂ : List Char} : l₁.isSuffixOf l₂ = true ↔ l₁ <:+ l₂ :=
  List.isSuffixOf_iff_suffix

theorem takeOfPre {α : Type} {l₁ l₂ : List α} (h : l₁ <+: l₂) :
    l₁ = l₂.take l₁.length := by
  obtain ⟨t, rfl⟩ := h
  rw [List.take_left]

theorem preOfPreLe {α : Type} {t u b : List α} (ht : t <+: b) (hu : u <+: b)
    (hle : u.length ≤ t.length) : u <+: t := by
  have h1 := takeOfPre ht
  have h2 := takeOfPre hu
  have h3 : t.take u.length = u := by
    rw [h1, List.take_take, Nat.min_eq_left hle, ← h2]
  have h4 := List.take_append_drop u.length t
  rw [h3] at h4
  exact ⟨t.drop u.length, h4⟩

theorem subAppendCases {α : Type} {p a b : List α} (h : p <:+: a ++ b) :
    p <:+: a ∨ p <:+: b ∨
      ∃ k, 0 < k ∧ k < p.length ∧ (p.take k) <:+ a ∧ (p.drop k) <+: b := by
  obtain ⟨s, t, hst⟩ := h
  have h1 : (s ++ p) ++ t = a ++ b := by
    simpa [List.append_assoc] using hst
  rcases List.append_eq_append_iff.mp h1 with ⟨w, hw1, _⟩ | ⟨w, hw1, hw2⟩
  · -- a = (s ++ p) ++ w : the occurrence is inside a
    exact Or.inl ⟨s, w, by simp [hw1, List.append_assoc]⟩
  · -- s ++ p = a ++ w and b = w ++ t
    rcases List.append_eq_append_iff.mp hw1 with ⟨v, hv1, hv2⟩ | ⟨v, hv1, hv2⟩
    · -- a = s ++ v and p = v ++ w
      rcases eq_or_ne v [] with rfl | hvne
      · exact Or.inr (Or.inl ⟨[], t, by simp [hv2, hw2]⟩)
      · rcases eq_or_ne w [] with rfl | hwne
        · have hpv : p = v := by simpa using hv2
          exact Or.inl ⟨s, [], by simp [hv1, hpv]⟩
        · refine Or.inr (Or.inr ⟨v.length, List.length_pos.mpr hvne, ?_, ?_, ?_⟩)
          · have : p.length = v.length + w.length := by simp [hv2]
            have : 0 < w.length := List.length_pos.mpr hwne
            omega
          · rw [hv2, List.take_left]
            exact ⟨s, hv1.symm⟩
          · rw [hv2, List.drop_left]
            exact ⟨t, hw2.symm⟩
    · -- s = a ++ v and w = v ++ p : the occurrence is inside b
      exact Or.inr (Or.inl ⟨v, t, by simp [hw2, hv2, List.append_assoc]⟩)

theorem notSubAppend {α : Type} {p a b : List α} (ha : ¬ p <:+: a) (hb : ¬ p <:+: b)
    (hcross : ∀ k, 0 < k → k < p.length → ¬ ((p.drop k) <+: b)) :
    ¬ p <:+: a ++ b := by
  intro h
  rcases subAppendCases h with h1 | h2 | ⟨k, hk0, hkl, _, hpre⟩
  · exact ha h1
  · exact hb h2
  · exact hcross k hk0 hkl hpre

theorem notSubAppendL {α : Type} {p a b : List α} (ha : ¬ p <:+: a) (hb : ¬ p <:+: b)
    (hcross : ∀ k, 0 < k → k < p.length → ¬ ((p.take k) <:+ a)) :
    ¬ p <:+: a ++ b := by
  intro h
  rcases subAppendCases h with h1 | h2 | ⟨k, hk0, hkl, hsuf, _⟩
  · exact ha h1
  · exact hb h2
  · exact hcross k hk0 hkl hsuf

theorem noCrossR_spec {p lit : List Char} (h : noCrossR p lit = true)
    {b : List Char} (hlit : lit <+: b) :
    ∀ k, 0 < k → k < p.length → ¬ ((p.drop k) <+: b) := by
  intro k hk0 hkl hpre
  have hmem : k ∈ List.range p.length := List.mem_range.mpr hkl
  have hk := List.all_eq_true.mp h k hmem
  rw [Bool.or_eq_true, Bool.and_eq_true] at hk
  rcases hk with hk | ⟨h1, h2⟩
  · simp at hk; omega
  · rcases le_or_lt (p.drop k).length lit.length with hle | hlt
    · have : (p.drop k) <+: lit := preOfPreLe hlit hpre hle
      rw [← isPrefixOfEq] at this
      simp [this] at h1
    · have : lit <+: (p.drop k) := preOfPreLe hpre hlit (Nat.le_of_lt hlt)
      rw [← isPrefixOfEq] at this
      simp [this] at h2

theorem dropOfSuf {α : Type} {l₁ l₂ : List α} (h : l₁ <:+ l₂) :
    l₁ = l₂.drop (l₂.length - l₁.length) := by
  obtain ⟨t, rfl⟩ := h
  simp [List.drop_left']

theorem sufOfSufLe {α : Type} {t u b : List α} (ht : t <:+ b) (hu : u <:+ b)
    (hle : u.length ≤ t.length) : u <:+ t := by
  obtain ⟨x, hx⟩ := ht
  obtain ⟨y, hy⟩ := hu
  have hxy : x ++ t = y ++ u := by rw [hx, hy]
  rcases List.append_eq_append_iff.mp hxy with ⟨w, _, hw2⟩ | ⟨w, _, hw2⟩
  · -- t = w ++ u
    exact ⟨w, hw2.symm⟩
  · -- u = w ++ t, so w is empty by the length bound
    have hw0 : w.length = 0 := by
      have hlu := congrArg List.length hw2
      simp at hlu
      omega
    have hwnil : w = [] := List.eq_nil_of_length_eq_zero hw0
    subst hwnil
    exact ⟨[], by simp [hw2]⟩

theorem noCrossL_spec {p lit : List Char} (h : noCrossL p lit = true)
    {a : List Char} (hlit : lit <:+ a) :
    ∀ k, 0 < k → k < p.length → ¬ ((p.take k) <:+ a) := by
  intro k hk0 hkl hsuf
  have hmem : k ∈ List.range p.length := List.mem_range.mpr hkl
  have hk := List.all_eq_true.mp h k hmem
  rw [Bool.or_eq_true, Bool.and_eq_true] at hk
  rcases hk with hk | ⟨h1, h2⟩
  · simp at hk; omega
  · rcases le_or_lt (p.take k).length lit.length with hle | hlt
    · have : (p.take k) <:+ lit := sufOfSufLe hlit hsuf hle
      rw [← isSuffixOfEq] at this
      simp [this] at h1
    · have : lit <:+ (p.take k) := sufOfSufLe hsuf hlit (Nat.le_of_lt hlt)
      rw [← isSuffixOfEq] at this
      simp [this] at h2

theorem subAppendRight {α : Type} (a : List α) {p b : List α} (h : p <:+: b) :
    p <:+: a ++ b := by
  obtain ⟨s, t, hst⟩ := h
  exact ⟨a ++ s, t, by simp [← hst, List.append_assoc]⟩

theorem subOfSelfAppend {α : Type} (p t : List α) : p <:+: p ++ t :=
  ⟨[], t, by simp⟩

theorem containsSubEq {pat l : List Char} : containsSub pat l = true ↔ pat <:+: l := by
  induction l with
  | nil =>
      rw [show containsSub pat [] = pat.isPrefixOf [] from rfl, isPrefixOfEq]
      constructor
      · intro h
        have : pat = [] := List.sublist_nil.mp h.sublist
        simp [this]
      · intro h
        have : pat = [] := List.sublist_nil.mp h.sublist
        simp [this]
  | cons c rest ih =>
      rw [show containsSub pat (c :: rest) =
            (pat.isPrefixOf (c :: rest) || containsSub pat rest) from rfl]
      rw [Bool.or_eq_true, isPrefixOfEq, ih]
      exact ( List.infix_cons_iff).symm

/-- String-level substring absence. -/
def noSubS (pat s : String) : Prop :=
  ¬ (pat.data <:+: s.data)

instance noSubS_decidable (pat s : String) : Decidable (noSubS pat s) :=
  inferInstanceAs (Decidable (¬ _))

theorem sufDataAppend (x lit : String) : lit.data <:+ (x ++ lit).data := by
  rw [String.data_append]
  exact List.suffix_append _ _

/-- Appending a literal that cannot host or straddle the pattern keeps a
string pattern-free. -/
theorem noSubS_append_lit {pat d lit : String} (hd : noSubS pat d) (hl : noSubS pat lit)
    (hR : noCrossR pat.data lit.data = true) : noSubS pat (d ++ lit) := by
  rw [noSubS, String.data_append]
  exact notSubAppend hd hl (noCrossR_spec hR (List.prefix_refl _))

/-- Appending a pattern-free variable part after a string that ends in a
literal that cannot straddle the pattern keeps the result pattern-free. -/
theorem noSubS_append_var {pat a v : String} (lit : String) (ha : noSubS pat a)
    (hv : noSubS pat v) (hsuf : lit.data <:+ a.data)
    (hL : noCrossL pat.data lit.data = true) : noSubS pat (a ++ v) := by
  rw [noSubS, String.data_append]
  exact notSubAppendL ha hv (noCrossL_spec hL hsuf)

theorem searchRestartWith_digits {l : List Char} {v : String}
    (h : searchRestartWith l = some v) : ∀ c ∈ v.data, c.isDigit = true := by
  induction l with
  | nil => simp [searchRestartWith] at h
  | cons c rest ih =>
      rw [searchRestartWith] at h
      split at h
      · split at h
        · exact ih h
        · have hv : v = String.mk (((c :: rest).drop "RESTART WITH ".length).takeWhile Char.isDigit) :=
            (Option.some_injective _ h).symm
          intro x hx
          rw [hv] at hx
          exact List.mem_takeWhile_imp hx
      · exact ih h

/-- A pattern whose characters are all non-digits cannot occur in an
all-digit string. -/
theorem noSubS_digits {pat v : String} (hp : ∀ c ∈ pat.data, c.isDigit = false)
    (hne : pat.data ≠ []) (hv : ∀ c ∈ v.data, c.isDigit = true) : noSubS pat v := by
  intro h
  match hm : pat.data, hne with
  | c :: _, _ =>
      rw [hm] at h hp
      have hcv : c ∈ v.data := h.sublist.subset (by simp)
      have h1 := hp c (by simp)
      have h2 := hv c hcv
      rw [h1] at h2
      exact Bool.false_ne_true h2

theorem noCrossDigits {p : List Char} {v : String} (hp : ∀ c ∈ p, c.isDigit = false)
    (hv : ∀ c ∈ v.data, c.isDigit = true) :
    ∀ k, 0 < k → k < p.length → ¬ ((p.drop k) <+: v.data) := by
  intro k _ hkl hpre
  have hne : p.drop k ≠ [] := by
    intro hnil
    rw [List.drop_eq_nil_iff] at hnil
    omega
  match hm : p.drop k, hne with
  | c :: _, _ =>
      rw [hm] at hpre
      have hcv : c ∈ v.data := hpre.sublist.subset (by simp)
      have hcp : c ∈ p := List.mem_of_mem_drop (by rw [hm]; simp)
      have h1 := hp c hcp
      have h2 := hv c hcv
      rw [h1] at h2
      exact Bool.false_ne_true h2

/-- Variant of `noSubS_append_var` for an all-digit variable part. -/
theorem noSubS_append_digits {pat a v : String} (ha : noSubS pat a)
    (hp : ∀ c ∈ pat.data, c.isDigit = false) (hne : pat.data ≠ [])
    (hv : ∀ c ∈ v.data, c.isDigit = true) : noSubS pat (a ++ v) := by
  rw [noSubS, String.data_append]
  exact notSubAppend ha (noSubS_digits hp hne hv) (noCrossDigits hp hv)

theorem subAppendLeft {α : Type} {p a : List α} (b : List α) (h : p <:+: a) :
    p <:+: a ++ b := by
  obtain ⟨s, t, hst⟩ := h
  exact ⟨s, t ++ b, by rw [← hst]; simp [List.append_assoc]⟩

theorem noSub_of_pre {pat l l' : List Char} (hpre : l' <+: l) (hn : ¬ pat <:+: l) :
    ¬ pat <:+: l' :=
  fun hc => hn (hc.trans hpre.isInfix)

theorem pyRstrip_pre (s : String) : (pyRstrip s).data <+: s.data := by
  show (pyRstripChars s.data) <+: s.data
  unfold pyRstripChars
  rw [← List.reverse_suffix, List.reverse_reverse]
  exact List.dropWhile_suffix _

theorem noSubS_add_not_valid {pat d : String} (hd : noSubS pat d)
    (h1 : noSubS pat " NOT VALID;") (h2 : noSubS pat " NOT VALID")
    (hR1 : noCrossR pat.data (" NOT VALID;").data = true)
    (hR2 : noCrossR pat.data (" NOT VALID").data = true) :
    noSubS pat (add_not_valid_constraint d) := by
  unfold add_not_valid_constraint
  split
  · exact hd
  · have hstrip : noSubS pat (pyRstrip d) := noSub_of_pre (pyRstrip_pre d) hd
    split
    · have hdrop : noSubS pat (String.mk (pyRstrip d).data.dropLast) :=
        noSub_of_pre ( List.dropLast_prefix _) hstrip
      rw [noSubS, String.data_append]
      exact notSubAppend hdrop h1 (noCrossR_spec hR1 (List.prefix_refl _))
    · rw [noSubS, String.data_append]
      exact notSubAppend hstrip h2 (noCrossR_spec hR2 (List.prefix_refl _))

theorem noSubS_pyJoin {pat sep : String} {parts : List String}
    (hparts : ∀ s ∈ parts, noSubS pat s) (hsep : noSubS pat sep)
    (hR : noCrossR pat.data sep.data = true) (hL : noCrossL pat.data sep.data = true)
    (hne : pat.data ≠ []) : noSubS pat (pyJoin sep parts) := by
  induction parts with
  | nil =>
      intro h
      have : pat.data = [] := List.sublist_nil.mp h.sublist
      exact hne this
  | cons s rest ih =>
      match rest with
      | [] => exact hparts s (by simp)
      | r :: rest' =>
          have hs := hparts s (by simp)
          have htail : noSubS pat (pyJoin sep (r :: rest')) :=
            ih (fun x hx => hparts x (by simp [hx]))
          have h1 : noSubS pat (s ++ sep) := noSubS_append_lit hs hsep hR
          have h2 : noSubS pat ((s ++ sep) ++ pyJoin sep (r :: rest')) :=
            noSubS_append_var sep h1 htail (sufDataAppend _ _) hL
          show noSubS pat (s ++ sep ++ pyJoin sep (r :: rest'))
          exact h2

theorem noSubS_lit_var {pat lead v : String} (hlead : noSubS pat lead) (hv : noSubS pat v)
    (hL : noCrossL pat.data lead.data = true) : noSubS pat (lead ++ v) :=
  noSubS_append_var lead hlead hv (List.suffix_refl _) hL

theorem dictPut_mem {α : Type} {m : List (String × α)} {k : String} {v : α} {x : String × α}
    (h : x ∈ dictPut m k v) : x ∈ m ∨ x = (k, v) := by
  induction m with
  | nil => simpa [dictPut] using h
  | cons hd tl ih =>
      obtain ⟨k', v'⟩ := hd
      rw [dictPut] at h
      split at h
      · rename_i heq
        have hk : k' = k := by simpa using heq
        rcases List.mem_cons.mp h with h1 | h1
        · right
          rw [h1, hk]
        · exact Or.inl (List.mem_cons_of_mem _ h1)
      · rcases List.mem_cons.mp h with h1 | h1
        · exact Or.inl (by rw [h1]; exact List.mem_cons_self _ _)
        · rcases ih h1 with h2 | h2
          · exact Or.inl (List.mem_cons_of_mem _ h2)
          · exact Or.inr h2

/- Support for the FOREIGN_KEY claims: DROP-freeness of what
`extract_foreign_keys` builds, and the loop structure of the FOREIGN_KEY
category of `compare_and_generate_migration`. -/

theorem noSubDROP_quoted {c : String} (hc : noSubS "DROP" c) :
    noSubS "DROP" ("\"" ++ c ++ "\"") := by
  have h1 := @noSubS_lit_var "DROP" "\"" _ (by decide) hc (by decide)
  exact noSubS_append_lit h1 (by decide) (by decide)

theorem noSubDROP_action (code : String) : noSubS "DROP" (get_fk_action code) := by
  unfold get_fk_action
  split
  · decide
  · split
    · decide
    · split
      · decide
      · split
        · decide
        · split
          · decide
          · decide

theorem noSubDROP_quotedJoin {cols : List String} (hc : ∀ c ∈ cols, noSubS "DROP" c) :
    noSubS "DROP" (pyJoin ", " (cols.map (fun c => "\"" ++ c ++ "\""))) := by
  refine noSubS_pyJoin ?_ (by decide) (by decide) (by decide) (by decide)
  intro s hs
  obtain ⟨c, hcm, rfl⟩ := List.mem_map.mp hs
  exact noSubDROP_quoted (hc c hcm)

theorem noSubDROP_plainJoin {cols : List String} (hc : ∀ c ∈ cols, noSubS "DROP" c) :
    noSubS "DROP" (pyJoin "," cols) :=
  noSubS_pyJoin hc (by decide) (by decide) (by decide) (by decide)

theorem noSubDROP_fkKey {t : String} {fk : FKInfo} (ht : noSubS "DROP" t)
    (hrt : noSubS "DROP" fk.ref_table) (hcols : ∀ c ∈ fk.columns, noSubS "DROP" c)
    (hrcols : ∀ c ∈ fk.ref_columns, noSubS "DROP" c) :
    noSubS "DROP" (fkConstraintKey t fk) := by
  unfold fkConstraintKey
  split
  · rename_i c rc h1 h2
    have hc : noSubS "DROP" c := hcols c (by rw [h1]; simp)
    have hrc : noSubS "DROP" rc := hrcols rc (by rw [h2]; simp)
    have s1 := noSubS_append_lit ht (show noSubS "DROP" "." by decide) (by decide)
    have s2 := noSubS_append_var "." s1 hc (sufDataAppend _ _) (by decide)
    have s3 := noSubS_append_lit s2 (show noSubS "DROP" "->" by decide) (by decide)
    have s4 := noSubS_append_var "->" s3 hrt (sufDataAppend _ _) (by decide)
    have s5 := noSubS_append_lit s4 (show noSubS "DROP" "." by decide) (by decide)
    exact noSubS_append_var "." s5 hrc (sufDataAppend _ _) (by decide)
  · have s1 := noSubS_append_lit ht (show noSubS "DROP" ".(" by decide) (by decide)
    have s2 := noSubS_append_var ".(" s1 (noSubDROP_plainJoin hcols)
      (sufDataAppend _ _) (by decide)
    have s3 := noSubS_append_lit s2 (show noSubS "DROP" ")->" by decide) (by decide)
    have s4 := noSubS_append_var ")->" s3 hrt (sufDataAppend _ _) (by decide)
    have s5 := noSubS_append_lit s4 (show noSubS "DROP" ".(" by decide) (by decide)
    have s6 := noSubS_append_var ".(" s5 (noSubDROP_plainJoin hrcols)
      (sufDataAppend _ _) (by decide)
    exact noSubS_append_lit s6 (show noSubS "DROP" ")" by decide) (by decide)

theorem noSubDROP_fkDdl {t : String} {fk : FKInfo} (ht : noSubS "DROP" t)
    (hn : noSubS "DROP" fk.constraint_name) (hrt : noSubS "DROP" fk.ref_table)
    (hcols : ∀ c ∈ fk.columns, noSubS "DROP" c)
    (hrcols : ∀ c ∈ fk.ref_columns, noSubS "DROP" c) :
    noSubS "DROP" (fkDdl t fk) := by
  unfold fkDdl
  have hp0 : noSubS "DROP" ("ALTER TABLE public.\"" ++ t ++ "\"") := by
    have h1 := @noSubS_lit_var "DROP" "ALTER TABLE public.\"" _
      (by decide) ht (by decide)
    exact noSubS_append_lit h1 (by decide) (by decide)
  have hp1 : noSubS "DROP" ("ADD CONSTRAINT \"" ++ fk.constraint_name ++ "\"") := by
    have h1 := @noSubS_lit_var "DROP" "ADD CONSTRAINT \"" _
      (by decide) hn (by decide)
    exact noSubS_append_lit h1 (by decide) (by decide)
  have hp2 : noSubS "DROP"
      ("FOREIGN KEY (" ++ pyJoin ", " (fk.columns.map (fun c => "\"" ++ c ++ "\"")) ++ ")") := by
    have h1 := @noSubS_lit_var "DROP" "FOREIGN KEY (" _
      (by decide) (noSubDROP_quotedJoin hcols) (by decide)
    exact noSubS_append_lit h1 (by decide) (by decide)
  have hp3 : noSubS "DROP"
      ("REFERENCES public.\"" ++ fk.ref_table ++ "\" (" ++
        pyJoin ", " (fk.ref_columns.map (fun c => "\"" ++ c ++ "\"")) ++ ")") := by
    have h1 := @noSubS_lit_var "DROP" "REFERENCES public.\"" _
      (by decide) hrt (by decide)
    have h2 := noSubS_append_lit h1 (show noSubS "DROP" "\" (" by decide) (by decide)
    have h3 := noSubS_append_var "\" (" h2 (noSubDROP_quotedJoin hrcols)
      (sufDataAppend _ _) (by decide)
    exact noSubS_append_lit h3 (show noSubS "DROP" ")" by decide) (by decide)
  have hdel : noSubS "DROP" ("ON DELETE " ++ get_fk_action fk.on_delete) :=
    @noSubS_lit_var "DROP" "ON DELETE " _ (by decide)
      (noSubDROP_action _) (by decide)
  have hupd : noSubS "DROP" ("ON UPDATE " ++ get_fk_action fk.on_update) :=
    @noSubS_lit_var "DROP" "ON UPDATE " _ (by decide)
      (noSubDROP_action _) (by decide)
  have hjoin : ∀ parts : List String, (∀ s ∈ parts, noSubS "DROP" s) →
      noSubS "DROP" (pyJoin " " parts ++ ";") := by
    intro parts hparts
    have h := noSubS_pyJoin hparts (show noSubS "DROP" " " by decide)
      (by decide) (by decide) (by decide)
    exact noSubS_append_lit h (by decide) (by decide)
  dsimp only
  split <;> split <;>
    (refine hjoin _ ?_
     intro s hs
     simp only [List.mem_append, List.mem_cons, List.not_mem_nil, or_false] at hs
     casesm* _ ∨ _ <;> subst_vars <;>
       first
       | exact hp0
       | exact hp1
       | exact hp2
       | exact hp3
       | exact hdel
       | exact hupd)

theorem foldl_dictPut_mem {α β : Type} (K : β → String) (V : β → α) :
    ∀ (l : List β) (m0 : List (String × α)) (x : String × α),
      x ∈ l.foldl (fun m b => dictPut m (K b) (V b)) m0 →
      x ∈ m0 ∨ ∃ b ∈ l, x = (K b, V b) := by
  intro l
  induction l with
  | nil => intro m0 x h; exact Or.inl h
  | cons b rest ih =>
      intro m0 x h
      rw [List.foldl_cons] at h
      rcases ih (dictPut m0 (K b) (V b)) x h with h1 | h1
      · rcases dictPut_mem h1 with h2 | h2
        · exact Or.inl h2
        · exact Or.inr ⟨b, by simp, h2⟩
      · obtain ⟨b', hb', hx⟩ := h1
        exact Or.inr ⟨b', by simp [hb'], hx⟩

theorem extract_mem {composite_fks : List (String × List FKInfo)} {x : String × String}
    (h : x ∈ extract_foreign_keys composite_fks) :
    ∃ e ∈ composite_fks, ∃ fk ∈ e.2, x = (fkConstraintKey e.1 fk, fkDdl e.1 fk) := by
  unfold extract_foreign_keys at h
  suffices haux : ∀ (l : List (String × List FKInfo)) (m0 : List (String × String)),
      x ∈ l.foldl
        (fun fk_map entry => entry.2.foldl
          (fun fk_map fk => dictPut fk_map (fkConstraintKey entry.1 fk) (fkDdl entry.1 fk))
          fk_map) m0 →
      x ∈ m0 ∨ ∃ e ∈ l, ∃ fk ∈ e.2, x = (fkConstraintKey e.1 fk, fkDdl e.1 fk) by
    rcases haux composite_fks [] h with h1 | h1
    · simp at h1
    · exact h1
  intro l
  induction l with
  | nil => intro m0 h0; exact Or.inl h0
  | cons e rest ih =>
      intro m0 h0
      rw [List.foldl_cons] at h0
      rcases ih _ h0 with h1 | h1
      · rcases foldl_dictPut_mem (fkConstraintKey e.1) (fkDdl e.1) e.2 m0 x h1 with h2 | h2
        · exact Or.inl h2
        · obtain ⟨fk, hfk, hx⟩ := h2
          exact Or.inr ⟨e, by simp, fk, hfk, hx⟩
      · obtain ⟨e', he', rest'⟩ := h1
        exact Or.inr ⟨e', by simp [he'], rest'⟩

theorem srcOnlyStep_fk (e : List (String × String))
    (cu : List (String × List (String × List String))) (cp : List (String × List String))
    (fknv : Bool) (st : CmpState) (name : String) (srcD : ObjData) :
    srcOnlyStep "FOREIGN_KEY" e cu cp fknv st name srcD =
      { st with migration_sql := st.migration_sql ++ [fkCreateBlock fknv name srcD.getStr] } := by
  rfl

theorem commonStep_fk (e : List (String × String)) (u : Bool)
    (cu : List (String × List (String × List String))) (cp : List (String × List String))
    (fknv : Bool) (tgt_data : List (String × ObjData)) (st : CmpState) (name : String)
    (srcD : ObjData) :
    commonStep "FOREIGN_KEY" e u cu cp fknv tgt_data st name srcD =
      (if fkDiffersO tgt_data (name, srcD) then
        { st with migration_sql := st.migration_sql ++ [fkAddBlock fknv name srcD.getStr] }
      else
        { st with skipped_sql := st.skipped_sql ++ [fkSkipBlock name srcD.getStr] }) := by
  show (if fkDiffersO tgt_data (name, srcD) then _ else _) = _
  rfl

theorem fkSrcOnlyFold (e : List (String × String))
    (cu : List (String × List (String × List String))) (cp : List (String × List String))
    (fknv : Bool) :
    ∀ (l : List (String × ObjData)) (st : CmpState),
      l.foldl (fun st nd => srcOnlyStep "FOREIGN_KEY" e cu cp fknv st nd.1 nd.2) st =
      { st with migration_sql :=
          st.migration_sql ++ l.map (fun nd => fkCreateBlock fknv nd.1 nd.2.getStr) } := by
  intro l
  induction l with
  | nil => intro st; simp
  | cons nd rest ih =>
      intro st
      rw [List.foldl_cons, srcOnlyStep_fk, ih]
      simp

theorem fkCommonFold (e : List (String × String)) (u : Bool)
    (cu : List (String × List (String × List String))) (cp : List (String × List String))
    (fknv : Bool) (tgt_data : List (String × ObjData)) :
    ∀ (l : List (String × ObjData)) (st : CmpState),
      l.foldl (fun st nd => commonStep "FOREIGN_KEY" e u cu cp fknv tgt_data st nd.1 nd.2) st =
      { st with
          migration_sql := st.migration_sql ++
            (l.filter (fun nd => fkDiffersO tgt_data nd)).map
              (fun nd => fkAddBlock fknv nd.1 nd.2.getStr),
          skipped_sql := st.skipped_sql ++
            (l.filter (fun nd => !(fkDiffersO tgt_data nd))).map
              (fun nd => fkSkipBlock nd.1 nd.2.getStr) } := by
  intro l
  induction l with
  | nil => intro st; simp
  | cons nd rest ih =>
      intro st
      obtain ⟨n, d⟩ := nd
      rw [List.foldl_cons, commonStep_fk]
      by_cases hd : fkDiffersO tgt_data (n, d) = true
      · rw [if_pos hd, ih]
        simp [List.filter_cons, hd]
      · rw [if_neg hd, ih]
        simp only [Bool.not_eq_true] at hd
        simp [List.filter_cons, hd]

theorem dictGet_wrap (m : List (String × String)) (n : String) :
    dictGet? (wrapFkMap m) n = (dictGet? m n).map ObjData.ddl := by
  induction m with
  | nil => rfl
  | cons kv rest ih =>
      obtain ⟨k, v⟩ := kv
      show (if k == n then some (ObjData.ddl v) else dictGet? (wrapFkMap rest) n) = _
      rw [dictGet?]
      split
      · rfl
      · exact ih

theorem dictMem_wrap (m : List (String × String)) (n : String) :
    dictMem (wrapFkMap m) n = dictMem m n := by
  rw [dictMem, dictMem, dictGet_wrap]
  cases dictGet? m n <;> rfl

theorem fkDiffersO_wrap (tgt : List (String × String)) (nd : String × String) :
    fkDiffersO (wrapFkMap tgt) (nd.1, ObjData.ddl nd.2) = fkDiffers tgt nd := by
  rw [fkDiffersO, fkDiffers, dictMem_wrap, dictGet_wrap]
  cases dictGet? tgt nd.1 <;> rfl

theorem wrapMapFilter (p : String × ObjData → Bool) (F : String × ObjData → String)
    (l : List (String × String)) :
    ((wrapFkMap l).filter p).map F =
      (l.filter (fun nd => p (nd.1, ObjData.ddl nd.2))).map
        (fun nd => F (nd.1, ObjData.ddl nd.2)) := by
  induction l with
  | nil => rfl
  | cons nd rest ih =>
      show ((((nd.1, ObjData.ddl nd.2) :: wrapFkMap rest).filter p).map F) = _
      rw [List.filter_cons, List.filter_cons]
      split
      · rw [List.map_cons, List.map_cons, ih]
      · exact ih

theorem pyJoin_head_pre (sep x : String) (l : List String) :
    x.data <+: (pyJoin sep (x :: l)).data := by
  cases l with
  | nil => exact List.prefix_refl _
  | cons r rest =>
      show x.data <+: (x ++ sep ++ pyJoin sep (r :: rest)).data
      rw [String.data_append, String.data_append, List.append_assoc]
      exact List.prefix_append _ _

theorem pyJoin_mem_sub (sep : String) :
    ∀ (parts : List String) (s : String), s ∈ parts →
      s.data <:+: (pyJoin sep parts).data := by
  intro parts
  induction parts with
  | nil => intro s hs; simp at hs
  | cons x rest ih =>
      intro s hs
      rcases List.mem_cons.mp hs with h | h
      · subst h
        exact (pyJoin_head_pre sep s rest).isInfix
      · cases rest with
        | nil => simp at h
        | cons r rest' =>
            show s.data <:+: (x ++ sep ++ pyJoin sep (r :: rest')).data
            rw [String.data_append]
            exact subAppendRight _ (ih s h)

theorem pre_data_lit_var (pat lit v : String) (h : pat.data <+: lit.data) :
    pat.data <+: (lit ++ v).data := by
  rw [String.data_append]
  exact h.trans (List.prefix_append _ _)

theorem fkDdl_shape (t : String) (fk : FKInfo) :
    pyStartsWith (fkDdl t fk) "ALTER TABLE public." = true ∧
    containsSub "ADD CONSTRAINT".data (fkDdl t fk).data = true := by
  have hgen : ∀ rest : List String,
      pyStartsWith
        (pyJoin " " (("ALTER TABLE public.\"" ++ t ++ "\"") ::
          ("ADD CONSTRAINT \"" ++ fk.constraint_name ++ "\"") :: rest) ++ ";")
        "ALTER TABLE public." = true ∧
      containsSub "ADD CONSTRAINT".data
        ((pyJoin " " (("ALTER TABLE public.\"" ++ t ++ "\"") ::
          ("ADD CONSTRAINT \"" ++ fk.constraint_name ++ "\"") :: rest) ++ ";")).data = true := by
    intro rest
    constructor
    · rw [pyStartsWith, isPrefixOfEq, String.data_append]
      refine List.IsPrefix.trans ?_ (List.prefix_append _ _)
      refine List.IsPrefix.trans ?_ (pyJoin_head_pre " " _ _)
      refine pre_data_lit_var _ _ "\"" ?_
      refine pre_data_lit_var _ _ t ?_
      decide
    · rw [containsSubEq, String.data_append]
      refine subAppendLeft _ ?_
      refine List.IsInfix.trans ?_
        (pyJoin_mem_sub " " _ ("ADD CONSTRAINT \"" ++ fk.constraint_name ++ "\"") (by simp))
      refine List.IsInfix.trans ?_
        (List.IsPrefix.isInfix (pre_data_lit_var _ _ "\""
          (pre_data_lit_var _ _ fk.constraint_name (List.prefix_refl _))))
      exact List.IsPrefix.isInfix (by decide)
  dsimp only [fkDdl]
  split <;> split
  all_goals try simp only [List.cons_append, List.nil_append, List.append_nil]
  all_goals exact hgen _

theorem noSubDROP_ifNV (fknv : Bool) {d : String} (hd : noSubS "DROP" d) :
    noSubS "DROP" (if fknv then add_not_valid_constraint d else d) := by
  cases fknv with
  | false => exact hd
  | true =>
      exact noSubS_add_not_valid hd (by decide) (by decide) (by decide) (by decide)

theorem noSubDROP_createBlock (fknv : Bool) {name ddl : String}
    (hn : noSubS "DROP" name) (hd : noSubS "DROP" ddl) :
    noSubS "DROP" (fkCreateBlock fknv name ddl) := by
  rw [fkCreateBlock]
  have s1 := @noSubS_lit_var "DROP" "-- CREATE FOREIGN_KEY " _
    (by decide) hn (by decide)
  have s2 := noSubS_append_lit s1 (show noSubS "DROP" "\n" by decide) (by decide)
  have s3 := noSubS_append_var "\n" s2 (noSubDROP_ifNV fknv hd)
    (sufDataAppend _ _) (by decide)
  exact noSubS_append_lit s3 (show noSubS "DROP" "\n" by decide) (by decide)

theorem noSubDROP_addBlock (fknv : Bool) {name ddl : String}
    (hn : noSubS "DROP" name) (hd : noSubS "DROP" ddl) :
    noSubS "DROP" (fkAddBlock fknv name ddl) := by
  rw [fkAddBlock]
  have s1 := @noSubS_lit_var "DROP" "-- FOREIGN_KEY " _
    (by decide) hn (by decide)
  have s2 := noSubS_append_lit s1
    (show noSubS "DROP" " differs or missing. Adding.\n" by decide) (by decide)
  have hsuf : ("\n" : String).data <:+
      (("-- FOREIGN_KEY " ++ name) ++ " differs or missing. Adding.\n").data :=
    List.IsSuffix.trans
      (show ("\n" : String).data <:+ (" differs or missing. Adding.\n" : String).data by decide)
      (sufDataAppend ("-- FOREIGN_KEY " ++ name) " differs or missing. Adding.\n")
  have s3 := noSubS_append_var "\n" s2 (noSubDROP_ifNV fknv hd) hsuf (by decide)
  exact noSubS_append_lit s3 (show noSubS "DROP" "\n" by decide) (by decide)

theorem wrapFilter (p : String × ObjData → Bool) (l : List (String × String)) :
    (wrapFkMap l).filter p = wrapFkMap (l.filter (fun nd => p (nd.1, ObjData.ddl nd.2))) := by
  induction l with
  | nil => rfl
  | cons nd rest ih =>
      show ((nd.1, ObjData.ddl nd.2) :: wrapFkMap rest).filter p = _
      rw [List.filter_cons, List.filter_cons]
      split
      · rw [ih]
        rfl
      · exact ih

theorem wrapMap (F : String × ObjData → String) (l : List (String × String)) :
    (wrapFkMap l).map F = l.map (fun nd => F (nd.1, ObjData.ddl nd.2)) := by
  rw [wrapFkMap, List.map_map]
  rfl

/-- Claim C1 (counterexample): the claim asserts exit code 1 for the
mutually-exclusive-FK-flags pre-flight error and exit code 2 for a run whose
data migration left permanently failed tables; on both concrete runs the
process exit status computed from `main`'s control flow is 0. -/
theorem C1_counterexample :
    main_exit_code
      { skip_fk := true, fk_not_valid := true, config_loads := true,
        has_source := true, has_targets_gcp_test := true, connect_ok := true,
        verify := false, with_data := false, commit := true,
        data_migration_permanent_failures := [], schema_block_failure := false } = 0 ∧
    main_exit_code
      { skip_fk := false, fk_not_valid := false, config_loads := true,
        has_source := true, has_targets_gcp_test := true, connect_ok := true,
        verify := false, with_data := true, commit := true,
        data_migration_permanent_failures := ["member_tbl"],
        schema_block_failure := false } = 0 ∧
    (0 : Nat) ≠ 1 ∧ (0 : Nat) ≠ 2 := by
  refine ⟨rfl, rfl, by decide, by decide⟩

/-- Claim C1 (amended): for every run of the tool, the process exit code is 0
— every configuration error, fatal pre-flight error, connection failure and
partial data-migration failure is reported by printing and a plain `return`
from `main`, and no path calls `sys.exit`, so exit codes 1 and 2 are never
produced. -/
theorem C1_exit_code_always_zero (s : MainScenario) : main_exit_code s = 0 := by
  unfold main_exit_code
  repeat' split <;> try rfl

/-- Claim C6: after data load, for every identity-backed column the
post-reconciliation value of the target sequence equals the maximum of its
previous `last_value` and the target table's `MAX` of that column — a
trailing sequence is advanced to the maximum, and a sequence at or ahead of
the maximum is never decreased. -/
theorem C6_sequence_reconcile_is_max (tgt_last_value tgt_max_id : Int) :
    reconcile_identity_sequence tgt_last_value tgt_max_id = max tgt_last_value tgt_max_id ∧
    tgt_last_value ≤ reconcile_identity_sequence tgt_last_value tgt_max_id ∧
    tgt_max_id ≤ reconcile_identity_sequence tgt_last_value tgt_max_id := by
  unfold reconcile_identity_sequence
  simp only [beq_iff_eq]
  split
  · constructor
    · omega
    · constructor <;> omega
  · split
    · constructor
      · omega
      · constructor <;> omega
    · constructor
      · omega
      · constructor <;> omega

/-- Claim C7: the claim says `build_fk_validate_statements` returns exactly
one `VALIDATE CONSTRAINT` statement per block containing an
`ALTER TABLE public.<t> ADD CONSTRAINT <n>` statement.  The code's regex is
written in a raw string with doubled backslashes, so it demands literal `\`
characters; on the very blocks the FK generator produces (which contain an
ADD CONSTRAINT statement and no backslash) it never matches, and the function
returns the empty list — the claim describes the intent, the code a slip. -/
theorem C7_validate_statements_empty_on_fk_block :
    containsSub "ADD CONSTRAINT".data fkMigrationBlockExample.data = true ∧
    build_fk_validate_statements [fkMigrationBlockExample] = [] := by
  constructor
  · decide
  · decide

/-- Claim C9 (counterexample): with source pair `(5, false)` and target pair
`(5, true)` the pairs differ (only `is_called` differs), yet the sync step
leaves the target pair `(5, true)` instead of setting it to the source's
`(5, false)`: the code only compares `last_value`. -/
theorem C9_counterexample :
    ((5 : Int), false) ≠ ((5 : Int), true) ∧
    sync_sequence_step 5 5 false true = (5, true) ∧
    sync_sequence_step 5 5 false true ≠ (5, false) := by
  refine ⟨by decide, rfl, by decide⟩

/-- Claim C9 (amended): for every explicitly-tracked sequence present on both
databases, the target is set to the source's `(last_value, is_called)` pair
exactly when the `last_value`s differ; when the `last_value`s are equal the
target pair is left unchanged, even if `is_called` differs. -/
theorem C9_sync_updates_only_on_last_value (src_last tgt_last : Int)
    (src_called tgt_called : Bool) :
    sync_sequence_step src_last tgt_last src_called tgt_called =
      if src_last = tgt_last then (tgt_last, tgt_called) else (src_last, src_called) := by
  unfold sync_sequence_step
  by_cases h : src_last = tgt_last <;> simp [h]

/-- Claim C10: for every table and every column list, the INSERT statement
built by `migrate_single_table_with_conn` contains the fixed conflict clause
`ON CONFLICT (id) DO NOTHING` with the literal column name `id` — including
tables whose metadata has no column named `id`. -/
theorem C10_insert_sql_fixed_conflict_clause (table_name : String)
    (column_names : List String) (hid : "id" ∉ column_names) :
    "ON CONFLICT (id) DO NOTHING".data <:+:
      (migrate_single_table_insert_sql table_name column_names).data := by
  clear hid
  unfold migrate_single_table_insert_sql
  refine ⟨("\n                INSERT INTO public.\"" ++ table_name ++ "\" (" ++
    pyJoin ", " (column_names.map (fun col => "\"" ++ col ++ "\"")) ++
    ")\n                VALUES (" ++
    pyJoin ", " (column_names.map (fun _ => "%s")) ++ ")\n                ").data,
    "\n            ".data, ?_⟩
  simp [String.data_append, List.append_assoc]

/-- Claim C8 (counterexample): the sequences `s` exist on both sides and
their descriptors differ, but the source DDL carries no `RESTART WITH`
clause (its `is_called` was false), so the SEQUENCE diff emits a
`DROP SEQUENCE IF EXISTS ... CASCADE` recreation block rather than an
`ALTER SEQUENCE ... RESTART WITH` statement. -/
theorem C8_counterexample :
    normalize_sql "CREATE SEQUENCE public.s;" ≠
      normalize_sql "CREATE SEQUENCE public.s RESTART WITH 42;" ∧
    compare_and_generate_migration [("s", ObjData.ddl "CREATE SEQUENCE public.s;")]
        [("s", ObjData.ddl "CREATE SEQUENCE public.s RESTART WITH 42;")]
        "SEQUENCE" [] false [] [] false =
      (["-- SEQUENCE s differs. Recreating.\nDROP SEQUENCE IF EXISTS public.s CASCADE;\nCREATE SEQUENCE public.s;\n"],
       []) ∧
    "DROP SEQUENCE".data <:+:
      ("-- SEQUENCE s differs. Recreating.\nDROP SEQUENCE IF EXISTS public.s CASCADE;\nCREATE SEQUENCE public.s;\n").data := by
  refine ⟨by decide, by decide, by decide⟩

/-- Claim C8 (amended): for a sequence present on both sides whose
descriptors differ, *when the source DDL contains a `RESTART WITH n`
clause*, the SEQUENCE diff output is exactly one
`ALTER SEQUENCE ... RESTART WITH` block and contains no `DROP SEQUENCE`;
when the source DDL lacks `RESTART WITH`, the code instead emits
`DROP SEQUENCE IF EXISTS ... CASCADE` plus the source `CREATE SEQUENCE`
(see the counterexample). -/
theorem C8_sequence_diff_alter_restart (name srcDdl tgtDdl v : String)
    (hdiff : normalize_sql srcDdl ≠ normalize_sql tgtDdl)
    (hrestart : searchRestartWith srcDdl.data = some v)
    (hname : noSubS "DROP SEQUENCE" name) :
    compare_and_generate_migration [(name, ObjData.ddl srcDdl)]
        [(name, ObjData.ddl tgtDdl)] "SEQUENCE" [] false [] [] false =
      (["-- ALTER SEQUENCE " ++ name ++ " to sync current value\nALTER SEQUENCE public." ++
          name ++ " RESTART WITH " ++ v ++ ";\n"], []) ∧
    noSubS "DROP SEQUENCE"
      ("-- ALTER SEQUENCE " ++ name ++ " to sync current value\nALTER SEQUENCE public." ++
        name ++ " RESTART WITH " ++ v ++ ";\n") := by
  constructor
  · unfold compare_and_generate_migration
    simp only [List.filter, dictMem, dictGet?, beq_self_eq_true, if_pos rfl, Option.isSome,
      Bool.not_true, List.foldl]
    unfold commonStep
    simp [dictGet?, ObjData.getStr, bne_iff_ne, hdiff, hrestart]
  · have hv := searchRestartWith_digits hrestart
    have hpd : ∀ c ∈ ("DROP SEQUENCE").data, c.isDigit = false := by decide
    have hpne : ("DROP SEQUENCE").data ≠ [] := by decide
    have s1 : noSubS "DROP SEQUENCE" "-- ALTER SEQUENCE " := by decide
    have s2 := noSubS_append_var "-- ALTER SEQUENCE " s1 hname (List.suffix_refl _) (by decide)
    have s3 := noSubS_append_lit s2
      (show noSubS "DROP SEQUENCE" " to sync current value\nALTER SEQUENCE public." by decide)
      (by decide)
    have s4 := noSubS_append_var " to sync current value\nALTER SEQUENCE public." s3 hname
      (sufDataAppend _ _) (by decide)
    have s5 := noSubS_append_lit s4 (show noSubS "DROP SEQUENCE" " RESTART WITH " by decide)
      (by decide)
    have s6 := noSubS_append_digits s5 hpd hpne hv
    have s7 := noSubS_append_lit s6 (show noSubS "DROP SEQUENCE" ";\n" by decide) (by decide)
    exact s7

/-- Witness for C8 at a concrete differing pair whose source DDL has a
`RESTART WITH` clause. -/
theorem C8_sequence_diff_alter_restart_witness :
    (normalize_sql "CREATE SEQUENCE public.s RESTART WITH 42;" ≠
        normalize_sql "CREATE SEQUENCE public.s;") ∧
    searchRestartWith ("CREATE SEQUENCE public.s RESTART WITH 42;").data = some "42" ∧
    compare_and_generate_migration
        [("s", ObjData.ddl "CREATE SEQUENCE public.s RESTART WITH 42;")]
        [("s", ObjData.ddl "CREATE SEQUENCE public.s;")] "SEQUENCE" [] false [] [] false =
      (["-- ALTER SEQUENCE s to sync current value\nALTER SEQUENCE public.s RESTART WITH 42;\n"],
       []) :=
  ⟨by decide, by decide, by
    have h := (C8_sequence_diff_alter_restart "s" "CREATE SEQUENCE public.s RESTART WITH 42;"
      "CREATE SEQUENCE public.s;" "42" (by decide) (by decide) (by decide)).1
    simpa using h⟩

/-- Claim C2: on foreign-key maps as built by `extract_foreign_keys` (with
identifiers free of the letters `DROP`, which every sane Postgres identifier
is), the FOREIGN_KEY category of `compare_and_generate_migration` emits, per
source FK missing from the target, exactly one CREATE block; per common FK
whose normalized DDL differs, exactly one `differs or missing. Adding.` block;
per up-to-date common FK, exactly one commented skip entry; nothing for
target-only FKs (the loops range over source entries only); no emitted
migration statement contains `DROP` anywhere; and every generated FK DDL is an
`ALTER TABLE public.* ... ADD CONSTRAINT` statement. -/
theorem C2_fk_diff_add_only_no_drop (composite_fks : List (String × List FKInfo))
    (tgt_fks : List (String × String)) (e : List (String × String)) (u : Bool)
    (cu : List (String × List (String × List String))) (cp : List (String × List String))
    (fknv : Bool)
    (hids : ∀ tl ∈ composite_fks, noSubS "DROP" tl.1 ∧ ∀ fk ∈ tl.2,
      noSubS "DROP" fk.constraint_name ∧ noSubS "DROP" fk.ref_table ∧
      (∀ c ∈ fk.columns, noSubS "DROP" c) ∧ (∀ c ∈ fk.ref_columns, noSubS "DROP" c)) :
    compare_and_generate_migration (wrapFkMap (extract_foreign_keys composite_fks))
        (wrapFkMap tgt_fks) "FOREIGN_KEY" e u cu cp fknv =
      (((extract_foreign_keys composite_fks).filter
            (fun nd => !(dictMem tgt_fks nd.1))).map
          (fun nd => fkCreateBlock fknv nd.1 nd.2) ++
        ((((extract_foreign_keys composite_fks).filter
            (fun nd => dictMem tgt_fks nd.1)).filter
            (fun nd => fkDiffers tgt_fks nd)).map
          (fun nd => fkAddBlock fknv nd.1 nd.2)),
       (((extract_foreign_keys composite_fks).filter
            (fun nd => dictMem tgt_fks nd.1)).filter
            (fun nd => !(fkDiffers tgt_fks nd))).map
          (fun nd => fkSkipBlock nd.1 nd.2)) ∧
    (∀ b ∈ (compare_and_generate_migration (wrapFkMap (extract_foreign_keys composite_fks))
        (wrapFkMap tgt_fks) "FOREIGN_KEY" e u cu cp fknv).1, noSubS "DROP" b) ∧
    (∀ nd ∈ extract_foreign_keys composite_fks,
      pyStartsWith nd.2 "ALTER TABLE public." = true ∧
      containsSub "ADD CONSTRAINT".data nd.2.data = true) := by
  have hA : compare_and_generate_migration (wrapFkMap (extract_foreign_keys composite_fks))
      (wrapFkMap tgt_fks) "FOREIGN_KEY" e u cu cp fknv =
      (((extract_foreign_keys composite_fks).filter
            (fun nd => !(dictMem tgt_fks nd.1))).map
          (fun nd => fkCreateBlock fknv nd.1 nd.2) ++
        ((((extract_foreign_keys composite_fks).filter
            (fun nd => dictMem tgt_fks nd.1)).filter
            (fun nd => fkDiffers tgt_fks nd)).map
          (fun nd => fkAddBlock fknv nd.1 nd.2)),
       (((extract_foreign_keys composite_fks).filter
            (fun nd => dictMem tgt_fks nd.1)).filter
            (fun nd => !(fkDiffers tgt_fks nd))).map
          (fun nd => fkSkipBlock nd.1 nd.2)) := by
    rw [compare_and_generate_migration]
    simp only [fkSrcOnlyFold, fkCommonFold]
    simp only [wrapFilter, wrapMap, dictMem_wrap, fkDiffersO_wrap, ObjData.getStr]
    simp
  have hsrc : ∀ nd ∈ extract_foreign_keys composite_fks,
      noSubS "DROP" nd.1 ∧ noSubS "DROP" nd.2 := by
    intro nd hnd
    obtain ⟨en, hen, fk, hfk, hx⟩ := extract_mem hnd
    obtain ⟨ht, hfks⟩ := hids en hen
    obtain ⟨hn, hrt, hcols, hrcols⟩ := hfks fk hfk
    rw [hx]
    exact ⟨noSubDROP_fkKey ht hrt hcols hrcols, noSubDROP_fkDdl ht hn hrt hcols hrcols⟩
  refine ⟨hA, ?_, ?_⟩
  · intro b hb
    rw [hA] at hb
    have hb' : b ∈ ((extract_foreign_keys composite_fks).filter
          (fun nd => !(dictMem tgt_fks nd.1))).map
        (fun nd => fkCreateBlock fknv nd.1 nd.2) ++
        ((((extract_foreign_keys composite_fks).filter
            (fun nd => dictMem tgt_fks nd.1)).filter
            (fun nd => fkDiffers tgt_fks nd)).map
          (fun nd => fkAddBlock fknv nd.1 nd.2)) := hb
    rcases List.mem_append.mp hb' with hm | hm
    · obtain ⟨nd, hnd, rfl⟩ := List.mem_map.mp hm
      obtain ⟨h1, h2⟩ := hsrc nd (List.mem_filter.mp hnd).1
      exact noSubDROP_createBlock fknv h1 h2
    · obtain ⟨nd, hnd, rfl⟩ := List.mem_map.mp hm
      obtain ⟨h1, h2⟩ := hsrc nd
        (List.mem_filter.mp (List.mem_filter.mp hnd).1).1
      exact noSubDROP_addBlock fknv h1 h2
  · intro nd hnd
    obtain ⟨en, hen, fk, hfk, hx⟩ := extract_mem hnd
    rw [hx]
    exact fkDdl_shape en.1 fk

/-- Witness for C2 at a one-constraint source map against an empty target in
`--fk-not-valid` mode. -/
theorem C2_fk_diff_add_only_no_drop_witness :
    (∀ tl ∈ [("orders", [FKInfo.mk "orders_user_id_fkey" ["user_id"] "users" ["id"] "c" "a"])],
      noSubS "DROP" tl.1 ∧ ∀ fk ∈ tl.2,
        noSubS "DROP" fk.constraint_name ∧ noSubS "DROP" fk.ref_table ∧
        (∀ c ∈ fk.columns, noSubS "DROP" c) ∧ (∀ c ∈ fk.ref_columns, noSubS "DROP" c)) ∧
    (∀ b ∈ (compare_and_generate_migration
        (wrapFkMap (extract_foreign_keys
          [("orders", [FKInfo.mk "orders_user_id_fkey" ["user_id"] "users" ["id"] "c" "a"])]))
        (wrapFkMap []) "FOREIGN_KEY" [] false [] [] true).1, noSubS "DROP" b) :=
  ⟨by decide,
   (C2_fk_diff_add_only_no_drop
      [("orders", [FKInfo.mk "orders_user_id_fkey" ["user_id"] "users" ["id"] "c" "a"])]
      [] [] false [] [] true (by decide)).2.1⟩

theorem dictGet_mem_keys {α : Type} {m : List (String × α)} {k : String} {v : α}
    (h : dictGet? m k = some v) : k ∈ dictKeys m := by
  induction m with
  | nil => simp [dictGet?] at h
  | cons kv rest ih =>
      rw [dictGet?] at h
      split at h
      · rename_i heq
        have : kv.1 = k := by simpa using heq
        rw [dictKeys, List.map_cons, this]
        simp
      · rw [dictKeys, List.map_cons]
        exact List.mem_cons_of_mem _ (ih h)

theorem compareColsLoop_recreate (name : String) (sm tm : List (String × Column)) :
    ∀ (cols : List String) (alters : List String),
      (∃ cn ∈ cols, ∃ sc tc, dictGet? sm cn = some sc ∧ dictGet? tm cn = some tc ∧
        normalize_sql sc.type ≠ normalize_sql tc.type ∧
        is_safe_type_change (normalize_sql tc.type) (normalize_sql sc.type) = false) →
      (compareColsLoop name true sm tm alters cols).2 = true := by
  intro cols
  induction cols with
  | nil =>
      intro alters h
      obtain ⟨cn, hcn, _⟩ := h
      simp at hcn
  | cons c rest ih =>
      intro alters h
      obtain ⟨cn, hcn, sc, tc, h1, h2, h3, h4⟩ := h
      rcases List.mem_cons.mp hcn with hc | hc
      · subst hc
        rw [compareColsLoop, h1, h2]
        have hbne : (normalize_sql sc.type != normalize_sql tc.type) = true := by
          simpa [bne_iff_ne] using h3
        simp [hbne, h4]
      · have hrest : ∃ cn ∈ rest, ∃ sc tc, dictGet? sm cn = some sc ∧
            dictGet? tm cn = some tc ∧ normalize_sql sc.type ≠ normalize_sql tc.type ∧
            is_safe_type_change (normalize_sql tc.type) (normalize_sql sc.type) = false :=
          ⟨cn, hc, sc, tc, h1, h2, h3, h4⟩
        rw [compareColsLoop]
        rcases hsc : dictGet? sm c with _ | sc'
        · exact ih _ hrest
        · rcases htc : dictGet? tm c with _ | tc'
          · exact ih _ hrest
          · dsimp only
            split
            · split
              · exact ih _ hrest
              · rfl
            · split
              · split
                · split
                  · exact ih _ hrest
                  · exact ih _ hrest
                · rfl
              · exact ih _ hrest

theorem tableCommonStep_recreate (name : String) (srcCols tgtCols : List Column)
    (cu : List (String × List (String × List String))) (cp : List (String × List String))
    (st : CmpState) (cn : String) (src_col tgt_col : Column)
    (hs : dictGet? (srcCols.foldl (fun m c => dictPut m c.name c) []) cn = some src_col)
    (ht : dictGet? (tgtCols.foldl (fun m c => dictPut m c.name c) []) cn = some tgt_col)
    (hdiff : normalize_sql src_col.type ≠ normalize_sql tgt_col.type)
    (hwiden : is_safe_type_change (normalize_sql tgt_col.type)
      (normalize_sql src_col.type) = false) :
    tableCommonStep name srcCols tgtCols true cu cp st =
      { st with
        migration_sql := st.migration_sql ++
          ["-- TABLE " ++ name ++
            " differs significantly. Recreating.\nDROP TABLE IF EXISTS public." ++ name ++
            " CASCADE;\n" ++ generate_create_table_ddl name srcCols cu cp ++ "\n"],
        alter_statements := [] } := by
  have hmem : cn ∈ (dictKeys (srcCols.foldl (fun m c => dictPut m c.name c) [])).filter
      (fun n => dictMem (tgtCols.foldl (fun m c => dictPut m c.name c) []) n) :=
    List.mem_filter.mpr ⟨dictGet_mem_keys hs, by rw [dictMem, ht]; rfl⟩
  have hloop : (compareColsLoop name true
      (srcCols.foldl (fun m c => dictPut m c.name c) [])
      (tgtCols.foldl (fun m c => dictPut m c.name c) []) st.alter_statements
      ((dictKeys (srcCols.foldl (fun m c => dictPut m c.name c) [])).filter
        (fun n => dictMem (tgtCols.foldl (fun m c => dictPut m c.name c) []) n))).2 = true :=
    compareColsLoop_recreate name _ _ _ _ ⟨cn, hmem, src_col, tgt_col, hs, ht, hdiff, hwiden⟩
  have hempty : ((dictKeys (srcCols.foldl (fun m c => dictPut m c.name c) [])).filter
      (fun n => dictMem (tgtCols.foldl (fun m c => dictPut m c.name c) []) n)).isEmpty
      = false := by
    cases hcc : (dictKeys (srcCols.foldl (fun m c => dictPut m c.name c) [])).filter
        (fun n => dictMem (tgtCols.foldl (fun m c => dictPut m c.name c) []) n) with
    | nil => rw [hcc] at hmem; simp at hmem
    | cons a l => rfl
  rw [tableCommonStep]
  simp only [hempty, Bool.false_and, Bool.false_or, if_neg Bool.false_ne_true, hloop,
    Bool.not_true, Bool.and_self, if_pos rfl]
  simp

/-- Claim C4: with ALTER mode on, a common column whose source/target types
differ outside the safe-widening set forces a full table recreate — the
emitted plan for that table is exactly the `DROP TABLE IF EXISTS ... CASCADE`
plus `CREATE TABLE` block, and (for a table name and generated DDL free of the
text `ALTER COLUMN`, as every generated `CREATE TABLE` is) no
`ALTER COLUMN ... TYPE` statement appears anywhere in the migration output. -/
theorem C4_unsafe_type_change_recreates (name : String) (srcCols tgtCols : List Column)
    (e : List (String × String))
    (cu : List (String × List (String × List String))) (cp : List (String × List String))
    (fknv : Bool) (cn : String) (src_col tgt_col : Column)
    (hs : dictGet? (srcCols.foldl (fun m c => dictPut m c.name c) []) cn = some src_col)
    (ht : dictGet? (tgtCols.foldl (fun m c => dictPut m c.name c) []) cn = some tgt_col)
    (hdiff : normalize_sql src_col.type ≠ normalize_sql tgt_col.type)
    (hwiden : is_safe_type_change (normalize_sql tgt_col.type)
      (normalize_sql src_col.type) = false)
    (hname : noSubS "ALTER COLUMN" name)
    (hddl : noSubS "ALTER COLUMN" (generate_create_table_ddl name srcCols cu cp)) :
    compare_and_generate_migration [(name, ObjData.table srcCols)]
        [(name, ObjData.table tgtCols)] "TABLE" e true cu cp fknv =
      (["-- TABLE " ++ name ++
          " differs significantly. Recreating.\nDROP TABLE IF EXISTS public." ++ name ++
          " CASCADE;\n" ++ generate_create_table_ddl name srcCols cu cp ++ "\n"], []) ∧
    (∀ b ∈ (compare_and_generate_migration [(name, ObjData.table srcCols)]
        [(name, ObjData.table tgtCols)] "TABLE" e true cu cp fknv).1,
      noSubS "ALTER COLUMN" b) := by
  have hA : compare_and_generate_migration [(name, ObjData.table srcCols)]
      [(name, ObjData.table tgtCols)] "TABLE" e true cu cp fknv =
      (["-- TABLE " ++ name ++
          " differs significantly. Recreating.\nDROP TABLE IF EXISTS public." ++ name ++
          " CASCADE;\n" ++ generate_create_table_ddl name srcCols cu cp ++ "\n"], []) := by
    unfold compare_and_generate_migration
    simp only [List.filter, dictMem, dictGet?, beq_self_eq_true, if_pos rfl, Option.isSome,
      Bool.not_true, List.foldl]
    unfold commonStep
    simp only [dictGet?, beq_self_eq_true, if_pos rfl, Option.getD_some, if_true,
      ObjData.getCols]
    rw [tableCommonStep_recreate name srcCols tgtCols cu cp _ cn src_col tgt_col hs ht hdiff
      hwiden]
    simp
  refine ⟨hA, ?_⟩
  intro b hb
  rw [hA] at hb
  have hb' : b ∈ ["-- TABLE " ++ name ++
      " differs significantly. Recreating.\nDROP TABLE IF EXISTS public." ++ name ++
      " CASCADE;\n" ++ generate_create_table_ddl name srcCols cu cp ++ "\n"] := hb
  have hbeq := List.mem_singleton.mp hb'
  subst hbeq
  have s1 := @noSubS_lit_var "ALTER COLUMN" "-- TABLE " _ (by decide) hname (by decide)
  have s2 := noSubS_append_lit s1
    (show noSubS "ALTER COLUMN"
      " differs significantly. Recreating.\nDROP TABLE IF EXISTS public." by decide) (by decide)
  have s3 := noSubS_append_var
    " differs significantly. Recreating.\nDROP TABLE IF EXISTS public." s2 hname
    (sufDataAppend ("-- TABLE " ++ name)
      " differs significantly. Recreating.\nDROP TABLE IF EXISTS public.") (by decide)
  have s4 := noSubS_append_lit s3 (show noSubS "ALTER COLUMN" " CASCADE;\n" by decide) (by decide)
  have s5 := noSubS_append_var " CASCADE;\n" s4 hddl
    (sufDataAppend ("-- TABLE " ++ name ++
      " differs significantly. Recreating.\nDROP TABLE IF EXISTS public." ++ name)
      " CASCADE;\n") (by decide)
  exact noSubS_append_lit s5 (show noSubS "ALTER COLUMN" "\n" by decide) (by decide)

/-- Witness for C4: a `text → integer` change on column `v` of table `t`
forces the drop-and-recreate plan. -/
theorem C4_unsafe_type_change_recreates_witness :
    (dictGet? ([plainCol "v" "integer" none].foldl (fun m c => dictPut m c.name c) []) "v" =
      some (plainCol "v" "integer" none)) ∧
    (dictGet? ([plainCol "v" "text" none].foldl (fun m c => dictPut m c.name c) []) "v" =
      some (plainCol "v" "text" none)) ∧
    (normalize_sql (plainCol "v" "integer" none).type ≠
      normalize_sql (plainCol "v" "text" none).type) ∧
    (is_safe_type_change (normalize_sql (plainCol "v" "text" none).type)
      (normalize_sql (plainCol "v" "integer" none).type) = false) ∧
    (noSubS "ALTER COLUMN" "t") ∧
    (noSubS "ALTER COLUMN" (generate_create_table_ddl "t" [plainCol "v" "integer" none] [] [])) ∧
    compare_and_generate_migration [("t", ObjData.table [plainCol "v" "integer" none])]
        [("t", ObjData.table [plainCol "v" "text" none])] "TABLE" [] true [] [] false =
      (["-- TABLE t differs significantly. Recreating.\nDROP TABLE IF EXISTS public.t CASCADE;\n"
          ++ generate_create_table_ddl "t" [plainCol "v" "integer" none] [] [] ++ "\n"], []) := by
  refine ⟨by decide, by decide, by decide, by decide, by decide, by decide, ?_⟩
  have h := (C4_unsafe_type_change_recreates "t" [plainCol "v" "integer" none]
    [plainCol "v" "text" none] [] [] [] false "v" (plainCol "v" "integer" none)
    (plainCol "v" "text" none) (by decide) (by decide) (by decide) (by decide)
    (by decide) (by decide)).1
  simpa using h

theorem strEq_of_data {a b : String} (h : a.data = b.data) : a = b := by
  cases a
  cases b
  exact congrArg String.mk h

theorem dictMem_of_mem_keys {α : Type} {m : List (String × α)} {k : String}
    (h : k ∈ dictKeys m) : dictMem m k = true := by
  induction m with
  | nil => simp [dictKeys] at h
  | cons kv rest ih =>
      rw [dictMem, dictGet?]
      split
      · rfl
      · rename_i hne
        rw [dictKeys, List.map_cons, List.mem_cons] at h
        rcases h with h | h
        · exact absurd (show (kv.1 == k) = true by simp [h]) hne
        · exact ih h

theorem dictGet_nodup_mem {α : Type} {m : List (String × α)} {nd : String × α}
    (hnodup : (m.map Prod.fst).Nodup) (h : nd ∈ m) : dictGet? m nd.1 = some nd.2 := by
  induction m with
  | nil => simp at h
  | cons kv rest ih =>
      rw [List.map_cons, List.nodup_cons] at hnodup
      rcases List.mem_cons.mp h with h1 | h1
      · rw [h1, dictGet?]
        simp
      · rw [dictGet?]
        split
        · rename_i heq
          have hk : kv.1 = nd.1 := by simpa using heq
          have : nd.1 ∈ rest.map Prod.fst := List.mem_map.mpr ⟨nd, h1, rfl⟩
          rw [hk] at hnodup
          exact absurd this hnodup.1
        · exact ih hnodup.2 h1

theorem contains_eq_false_of_not_mem {l : List String} {a : String} (h : a ∉ l) :
    l.contains a = false := by
  induction l with
  | nil => rfl
  | cons x xs ih =>
      rw [List.contains_cons]
      have h1 : (a == x) = false := by
        cases hax : a == x
        · rfl
        · exact absurd (eq_of_beq hax) (fun he => h (by rw [List.mem_cons]; exact Or.inl he))
      rw [h1, ih (fun hm => h (List.mem_cons_of_mem _ hm))]
      rfl

theorem zip_self_eq {α : Type} (l : List α) : ∀ p ∈ l.zip l, p.1 = p.2 := by
  induction l with
  | nil => intro p hp; simp at hp
  | cons a rest ih =>
      intro p hp
      rw [List.zip_cons_cons, List.mem_cons] at hp
      rcases hp with hp | hp
      · rw [hp]
      · exact ih p hp

theorem zipColsDiffer_self (cols : List Column) : zipColsDiffer cols cols = false := by
  rw [zipColsDiffer]
  rw [List.any_eq_false]
  intro p hp
  have : p.1 = p.2 := zip_self_eq cols p hp
  rw [this]
  simp

theorem compareColsLoop_same (name : String) (u : Bool) (sm : List (String × Column)) :
    ∀ (cols : List String) (alters : List String),
      compareColsLoop name u sm sm alters cols = (alters, false) := by
  intro cols
  induction cols with
  | nil => intro alters; rfl
  | cons c rest ih =>
      intro alters
      rw [compareColsLoop]
      cases hc : dictGet? sm c with
      | none => exact ih alters
      | some col =>
          dsimp only
          rw [if_neg (by simp), if_neg (by simp)]
          exact ih alters

theorem keys_filter_not_mem {α : Type} (m : List (String × α)) :
    (dictKeys m).filter (fun n => !(dictMem m n)) = [] := by
  rw [List.filter_eq_nil_iff]
  intro n hn
  rw [dictMem_of_mem_keys hn]
  simp

theorem keys_filter_mem {α : Type} (m : List (String × α)) :
    (dictKeys m).filter (fun n => dictMem m n) = dictKeys m := by
  rw [List.filter_eq_self]
  intro n hn
  exact dictMem_of_mem_keys hn

theorem tableCommonStep_identical (name : String) (cols : List Column) (u : Bool)
    (cu : List (String × List (String × List String))) (cp : List (String × List String))
    (st : CmpState) (halt : st.alter_statements = []) :
    tableCommonStep name cols cols u cu cp st =
      { st with skipped_sql := st.skipped_sql ++
          (["-- TABLE " ++ name ++ " is up-to-date; skipping.\n"] ++
            (if (generate_create_table_ddl name cols cu cp != "") = true
             then [commentedLines (generate_create_table_ddl name cols cu cp) ++ "\n"]
             else [])) } := by
  have hadd := keys_filter_not_mem (cols.foldl (fun m c => dictPut m c.name c) [])
  obtain ⟨mig0, skip0, alt0, proc0⟩ := st
  replace halt : alt0 = [] := halt
  subst halt
  rw [tableCommonStep]
  simp only [hadd, compareColsLoop_same, List.isEmpty_nil, Bool.not_true, Bool.or_self,
    Bool.and_false, Bool.false_or, if_neg Bool.false_ne_true, zipColsDiffer_self,
    bne_self_eq_false, List.flatMap_nil, List.append_nil]
  cases u with
  | true =>
      simp only [Bool.not_false, Bool.and_self, if_pos rfl, List.isEmpty_nil, Bool.not_true,
        if_neg Bool.false_ne_true, Bool.true_and, Bool.and_true, Bool.false_and]
      by_cases hg : generate_create_table_ddl name cols cu cp = ""
      · simp [hg]
      · simp [hg]
  | false =>
      simp only [Bool.and_false, if_neg Bool.false_ne_true, Bool.not_false, Bool.true_and,
        Bool.false_or, List.isEmpty_nil]
      by_cases hg : generate_create_table_ddl name cols cu cp = ""
      · simp [hg]
      · simp [hg]

theorem pyStartsWith_self (a : String) : pyStartsWith a a = true := by
  rw [pyStartsWith, isPrefixOfEq]

theorem pyStartsWith_append2 (a b c : String) : pyStartsWith (a ++ b ++ c) a = true := by
  rw [pyStartsWith, isPrefixOfEq, String.data_append, String.data_append, List.append_assoc]
  exact List.prefix_append _ _

theorem skipHead_eq (ot lit name : String)
    (h : lit.data = ("-- " : String).data ++ ot.data ++ (" " : String).data) :
    lit ++ name ++ " is up-to-date; skipping.\n" = skipHead ot name := by
  refine strEq_of_data ?_
  simp only [skipHead, String.data_append, h, List.append_assoc]

/-- One identical-pair iteration of the common loop: whatever the category, the
step leaves `migration_sql` untouched, keeps `alter_statements` empty, at most
records the name in `processed_sequences`, and appends a skip entry opening
with the standard up-to-date line. -/
theorem commonStep_identical (ot : String) (e : List (String × String)) (u : Bool)
    (cu : List (String × List (String × List String))) (cp : List (String × List String))
    (fknv : Bool) (d : List (String × ObjData)) (st : CmpState) (name : String) (v : ObjData)
    (hget : dictGet? d name = some v)
    (halt : st.alter_statements = [])
    (hproc : name ∉ st.processed_sequences) :
    (commonStep ot e u cu cp fknv d st name v).migration_sql = st.migration_sql ∧
    (commonStep ot e u cu cp fknv d st name v).alter_statements = [] ∧
    ((commonStep ot e u cu cp fknv d st name v).processed_sequences = st.processed_sequences ∨
      (commonStep ot e u cu cp fknv d st name v).processed_sequences =
        st.processed_sequences ++ [name]) ∧
    (∃ add, (commonStep ot e u cu cp fknv d st name v).skipped_sql = st.skipped_sql ++ add) ∧
    (∃ s ∈ (commonStep ot e u cu cp fknv d st name v).skipped_sql,
      pyStartsWith s (skipHead ot name) = true) := by
  have hmem : dictMem d name = true := by rw [dictMem, hget]; rfl
  by_cases hT : ot = "TABLE"
  · subst hT
    have hstep : commonStep "TABLE" e u cu cp fknv d st name v =
        tableCommonStep name v.getCols
          (((dictGet? d name).getD (ObjData.ddl "")).getCols) u cu cp st := rfl
    rw [hstep, hget, Option.getD_some, tableCommonStep_identical name v.getCols u cu cp st halt]
    refine ⟨rfl, halt, Or.inl rfl, ⟨_, rfl⟩, ?_⟩
    refine ⟨"-- TABLE " ++ name ++ " is up-to-date; skipping.\n", by simp, ?_⟩
    rw [skipHead_eq "TABLE" "-- TABLE " name (by decide)]
    exact pyStartsWith_self _
  · by_cases hI : ot = "INDEX"
    · subst hI
      have hstep : commonStep "INDEX" e u cu cp fknv d st name v =
          { st with skipped_sql := st.skipped_sql ++
              ["-- INDEX " ++ name ++ " is up-to-date; skipping.\n" ++
                commentedLines v.getStr ++ "\n"] } := by
        rw [commonStep]
        simp [hmem, hget, bne_self_eq_false]
      rw [hstep]
      refine ⟨rfl, halt, Or.inl rfl, ⟨_, rfl⟩, ?_⟩
      refine ⟨"-- INDEX " ++ name ++ " is up-to-date; skipping.\n" ++
        commentedLines v.getStr ++ "\n", by simp, ?_⟩
      rw [skipHead_eq "INDEX" "-- INDEX " name (by decide)]
      exact pyStartsWith_append2 _ _ _
    · by_cases hF : ot = "FOREIGN_KEY"
      · subst hF
        have hdiff : fkDiffersO d (name, v) = false := by
          rw [fkDiffersO]
          simp [hmem, hget, bne_self_eq_false]
        rw [commonStep_fk]
        rw [if_neg (by rw [hdiff]; exact Bool.false_ne_true)]
        refine ⟨rfl, halt, Or.inl rfl, ⟨_, rfl⟩, ?_⟩
        refine ⟨fkSkipBlock name v.getStr, by simp, ?_⟩
        rw [fkSkipBlock, skipHead_eq "FOREIGN_KEY" "-- FOREIGN_KEY " name (by decide)]
        exact pyStartsWith_append2 _ _ _
      · by_cases hS : ot = "SEQUENCE"
        · subst hS
          have hcont := contains_eq_false_of_not_mem hproc
          have hstep : commonStep "SEQUENCE" e u cu cp fknv d st name v =
              { st with
                skipped_sql := st.skipped_sql ++
                  ["-- SEQUENCE " ++ name ++ " is up-to-date; skipping.\n" ++
                    commentedLines v.getStr ++ "\n"],
                processed_sequences := st.processed_sequences ++ [name] } := by
            rw [commonStep]
            simp [hproc, hget, bne_self_eq_false]
          rw [hstep]
          refine ⟨rfl, halt, Or.inr rfl, ⟨_, rfl⟩, ?_⟩
          refine ⟨"-- SEQUENCE " ++ name ++ " is up-to-date; skipping.\n" ++
            commentedLines v.getStr ++ "\n", by simp, ?_⟩
          rw [skipHead_eq "SEQUENCE" "-- SEQUENCE " name (by decide)]
          exact pyStartsWith_append2 _ _ _
        · have bT : (ot == "TABLE") = false := beq_eq_false_iff_ne.mpr hT
          have bI : (ot == "INDEX") = false := beq_eq_false_iff_ne.mpr hI
          have bF : (ot == "FOREIGN_KEY") = false := beq_eq_false_iff_ne.mpr hF
          have bS : (ot == "SEQUENCE") = false := beq_eq_false_iff_ne.mpr hS
          have hstep : commonStep ot e u cu cp fknv d st name v =
              { st with skipped_sql := st.skipped_sql ++
                  (["-- " ++ ot ++ " " ++ name ++ " is up-to-date; skipping.\n"] ++
                    (if ((if (ot == "TYPE") = true then (dictGet? e name).getD ""
                          else v.getStr) != "") = true
                     then [commentedLines
                        (if (ot == "TYPE") = true then (dictGet? e name).getD ""
                         else v.getStr) ++ "\n"]
                     else [])) } := by
            rw [commonStep]
            simp [bT, bI, bF, bS, hget, bne_self_eq_false, halt]
            split <;> split <;> simp
          rw [hstep]
          refine ⟨rfl, halt, Or.inl rfl, ⟨_, rfl⟩, ?_⟩
          refine ⟨"-- " ++ ot ++ " " ++ name ++ " is up-to-date; skipping.\n", by simp, ?_⟩
          exact pyStartsWith_self _

theorem commonFold_identical (ot : String) (e : List (String × String)) (u : Bool)
    (cu : List (String × List (String × List String))) (cp : List (String × List String))
    (fknv : Bool) (d : List (String × ObjData)) :
    ∀ (l : List (String × ObjData)) (st : CmpState),
      (∀ nd ∈ l, dictGet? d nd.1 = some nd.2) →
      st.alter_statements = [] →
      (∀ nd ∈ l, nd.1 ∉ st.processed_sequences) →
      (l.map Prod.fst).Nodup →
      (l.foldl (fun st nd => commonStep ot e u cu cp fknv d st nd.1 nd.2) st).migration_sql
          = st.migration_sql ∧
        (∃ add,
          (l.foldl (fun st nd => commonStep ot e u cu cp fknv d st nd.1 nd.2) st).skipped_sql
            = st.skipped_sql ++ add) ∧
        (∀ nd ∈ l,
          ∃ s ∈ (l.foldl (fun st nd => commonStep ot e u cu cp fknv d st nd.1 nd.2) st).skipped_sql,
            pyStartsWith s (skipHead ot nd.1) = true) := by
  intro l
  induction l with
  | nil =>
      intro st hgets halt hprocs hnodup
      exact ⟨rfl, ⟨[], by simp⟩, by intro nd h; simp at h⟩
  | cons nd rest ih =>
      intro st hgets halt hprocs hnodup
      rw [List.map_cons, List.nodup_cons] at hnodup
      obtain ⟨hmig1, halt1, hproc1, ⟨add1, hskip1⟩, s1, hs1mem, hs1pre⟩ :=
        commonStep_identical ot e u cu cp fknv d st nd.1 nd.2
          (hgets nd (by simp)) halt (hprocs nd (by simp))
      have hprocs' : ∀ nd' ∈ rest, nd'.1 ∉
          (commonStep ot e u cu cp fknv d st nd.1 nd.2).processed_sequences := by
        intro nd' hnd'
        rcases hproc1 with hp | hp
        · rw [hp]
          exact hprocs nd' (List.mem_cons_of_mem _ hnd')
        · rw [hp]
          intro hcon
          rcases List.mem_append.mp hcon with hcon | hcon
          · exact hprocs nd' (List.mem_cons_of_mem _ hnd') hcon
          · have hnn : nd'.1 = nd.1 := by simpa using hcon
            exact hnodup.1 (by rw [← hnn]; exact List.mem_map.mpr ⟨nd', hnd', rfl⟩)
      obtain ⟨hmigR, ⟨addR, hskipR⟩, hentR⟩ :=
        ih (commonStep ot e u cu cp fknv d st nd.1 nd.2)
          (fun x hx => hgets x (List.mem_cons_of_mem _ hx)) halt1 hprocs' hnodup.2
      rw [List.foldl_cons]
      refine ⟨by rw [hmigR, hmig1],
        ⟨add1 ++ addR, by rw [hskipR, hskip1, List.append_assoc]⟩, ?_⟩
      intro x hx
      rcases List.mem_cons.mp hx with hx | hx
      · subst hx
        exact ⟨s1, by rw [hskipR]; exact List.mem_append_left _ hs1mem, hs1pre⟩
      · exact hentR x hx

/-- Claim C5: running the diff over a pair of identical snapshots (any object
category, duplicate-free names) produces no migration statement at all and a
skip entry — opening with the standard `is up-to-date; skipping.` line — for
every common object. -/
theorem C5_identical_snapshots_idempotent (d : List (String × ObjData)) (ot : String)
    (e : List (String × String)) (u : Bool)
    (cu : List (String × List (String × List String))) (cp : List (String × List String))
    (fknv : Bool) (hnodup : (d.map Prod.fst).Nodup) :
    (compare_and_generate_migration d d ot e u cu cp fknv).1 = [] ∧
    (∀ nd ∈ d, ∃ s ∈ (compare_and_generate_migration d d ot e u cu cp fknv).2,
      pyStartsWith s (skipHead ot nd.1) = true) := by
  have hfil1 : d.filter (fun nd => !(dictMem d nd.1)) = [] := by
    rw [List.filter_eq_nil_iff]
    intro nd hnd
    rw [dictMem_of_mem_keys (List.mem_map.mpr ⟨nd, hnd, rfl⟩)]
    simp
  have hfil2 : d.filter (fun nd => dictMem d nd.1) = d := by
    rw [List.filter_eq_self]
    intro nd hnd
    exact dictMem_of_mem_keys (List.mem_map.mpr ⟨nd, hnd, rfl⟩)
  obtain ⟨hmig, ⟨add, hskip⟩, hent⟩ := commonFold_identical ot e u cu cp fknv d d
    ⟨[], [], [], []⟩ (fun nd hnd => dictGet_nodup_mem hnodup hnd) rfl
    (by intro nd h; simp) hnodup
  have hC : compare_and_generate_migration d d ot e u cu cp fknv =
      ((d.foldl (fun st nd => commonStep ot e u cu cp fknv d st nd.1 nd.2)
          ⟨[], [], [], []⟩).migration_sql,
       (d.foldl (fun st nd => commonStep ot e u cu cp fknv d st nd.1 nd.2)
          ⟨[], [], [], []⟩).skipped_sql) := by
    rw [compare_and_generate_migration]
    simp only [hfil1, hfil2, List.foldl_nil]
  rw [hC]
  exact ⟨hmig, hent⟩

/-- Witness for C5 on a concrete one-view snapshot diffed against itself. -/
theorem C5_identical_snapshots_idempotent_witness :
    (([("v1", ObjData.ddl "CREATE VIEW v1 AS SELECT 1;")].map Prod.fst).Nodup) ∧
    ((compare_and_generate_migration [("v1", ObjData.ddl "CREATE VIEW v1 AS SELECT 1;")]
        [("v1", ObjData.ddl "CREATE VIEW v1 AS SELECT 1;")] "VIEW" [] false [] [] false).1 = [] ∧
      (∀ nd ∈ [("v1", ObjData.ddl "CREATE VIEW v1 AS SELECT 1;")],
        ∃ s ∈ (compare_and_generate_migration [("v1", ObjData.ddl "CREATE VIEW v1 AS SELECT 1;")]
            [("v1", ObjData.ddl "CREATE VIEW v1 AS SELECT 1;")] "VIEW" [] false [] [] false).2,
          pyStartsWith s (skipHead "VIEW" nd.1) = true)) :=
  ⟨by simp,
   C5_identical_snapshots_idempotent [("v1", ObjData.ddl "CREATE VIEW v1 AS SELECT 1;")]
     "VIEW" [] false [] [] false (by simp)⟩

theorem contains_iff {l : List String} {a : String} : l.contains a = true ↔ a ∈ l := by
  induction l with
  | nil => simp
  | cons x xs ih =>
      rw [List.contains_cons, List.mem_cons]
      simp [ih, beq_iff_eq]

theorem contains_append_ne {s : List String} {a b : String} (h : a ≠ b) :
    (s ++ [b]).contains a = s.contains a := by
  cases hc : s.contains a with
  | true => exact contains_iff.mpr (List.mem_append_left _ (contains_iff.mp hc))
  | false =>
      cases hc2 : (s ++ [b]).contains a with
      | false => rfl
      | true =>
          exfalso
          rcases List.mem_append.mp (contains_iff.mp hc2) with hm | hm
          · rw [contains_iff.mpr hm] at hc
            exact Bool.false_ne_true hc.symm
          · exact h (by simpa using hm)

theorem dictGet_some_mem {α : Type} {m : List (String × α)} {k : String} {v : α}
    (h : dictGet? m k = some v) : (k, v) ∈ m := by
  induction m with
  | nil => simp [dictGet?] at h
  | cons kv rest ih =>
      rw [dictGet?] at h
      split at h
      · rename_i heq
        have hk : kv.1 = k := by simpa using heq
        have hv : kv.2 = v := by simpa using h
        rw [List.mem_cons]
        left
        rw [← hk, ← hv]
      · exact List.mem_cons_of_mem _ (ih h)

theorem dictGet?_dictPut_self {α : Type} (m : List (String × α)) (k : String) (v : α) :
    dictGet? (dictPut m k v) k = some v := by
  induction m with
  | nil => simp [dictPut, dictGet?]
  | cons kv rest ih =>
      rw [dictPut]
      split
      · rename_i heq
        rw [dictGet?]
        rw [if_pos heq]
      · rename_i hne
        rw [dictGet?]
        split
        · rename_i heq
          exact absurd heq hne
        · exact ih

theorem dictGet?_dictPut_ne {α : Type} (m : List (String × α)) (k x : String) (v : α)
    (h : x ≠ k) : dictGet? (dictPut m k v) x = dictGet? m x := by
  induction m with
  | nil =>
      have hne : ¬(k == x) = true := fun he => h (eq_of_beq he).symm
      simp [dictPut, dictGet?, hne]
  | cons kv rest ih =>
      rw [dictPut]
      split
      · rename_i heq
        have hk : kv.1 = k := by simpa using heq
        rw [dictGet?, dictGet?]
        split
        · rename_i hx
          have hx2 : kv.1 = x := by simpa using hx
          exact absurd (hx2.symm.trans hk) h
        · rfl
      · rw [dictGet?, dictGet?]
        split
        · rfl
        · exact ih

theorem dictGet?_append {α : Type} (m l : List (String × α)) (x : String) :
    dictGet? (m ++ l) x =
      match dictGet? m x with
      | some v => some v
      | none => dictGet? l x := by
  induction m with
  | nil => simp [dictGet?]
  | cons kv rest ih =>
      rw [List.cons_append, dictGet?, dictGet?]
      split
      · rfl
      · exact ih

theorem degGet_setdefault (d : List (String × Int)) (k x : String) :
    degGet (degSetdefault d k) x = degGet d x := by
  rw [degSetdefault]
  split
  · rfl
  · rename_i hmem
    rw [degGet, degGet, dictGet?_append]
    cases hd : dictGet? d x with
    | some v => rfl
    | none =>
        cases hx : dictGet? [(k, (0 : Int))] x with
        | none => simp [hx]
        | some v =>
            rw [dictGet?] at hx
            split at hx
            · rename_i heq
              have : k = x := by simpa using heq
              rw [← this] at hd
              rw [dictMem, hd] at hmem
              have hv : (0 : Int) = v := by simpa using hx
              simp [← hv]
            · simp [dictGet?] at hx

theorem degGet_degAdd_self (d : List (String × Int)) (k : String) (n : Int) :
    degGet (degAdd d k n) k = degGet d k + n := by
  rw [degAdd, degGet, dictGet?_dictPut_self]
  rfl

theorem degGet_degAdd_ne (d : List (String × Int)) (k x : String) (n : Int) (h : x ≠ k) :
    degGet (degAdd d k n) x = degGet d x := by
  rw [degAdd, degGet, dictGet?_dictPut_ne _ _ _ _ h]
  rw [← degGet_setdefault d k x]
  rfl

theorem orderedInsert_perm (x : String) (l : List String) :
    (orderedInsert x l).Perm (x :: l) := by
  induction l with
  | nil => rfl
  | cons y ys ih =>
      rw [orderedInsert]
      split
      · rfl
      · exact List.Perm.trans (List.Perm.cons y ih) (List.Perm.swap x y ys)

theorem pySorted_perm (l : List String) : (pySorted l).Perm l := by
  induction l with
  | nil => rfl
  | cons x xs ih =>
      rw [pySorted, List.foldr_cons]
      exact List.Perm.trans (orderedInsert_perm _ _) (List.Perm.cons x ih)

theorem idxOf_append_left {a : String} {s : List String} (l : List String) (h : a ∈ s) :
    idxOf a (s ++ l) = idxOf a s := by
  induction s with
  | nil => simp at h
  | cons x xs ih =>
      rw [List.cons_append, idxOf, idxOf]
      split
      · rfl
      · rename_i hne
        have : a ∈ xs := by
          rcases List.mem_cons.mp h with h1 | h1
          · exact absurd (beq_iff_eq.mpr h1.symm) hne
          · exact h1
        rw [ih this]

theorem idxOf_append_self {a : String} {s : List String} (h : a ∉ s) :
    idxOf a (s ++ [a]) = s.length := by
  induction s with
  | nil => simp [idxOf]
  | cons x xs ih =>
      rw [List.cons_append, idxOf]
      split
      · rename_i heq
        exact absurd (List.mem_cons.mpr (Or.inl (eq_of_beq heq).symm)) h
      · rw [ih (fun hm => h (List.mem_cons_of_mem _ hm)), List.length_cons]

theorem idxOf_lt_length {a : String} {s : List String} (h : a ∈ s) :
    idxOf a s < s.length := by
  induction s with
  | nil => simp at h
  | cons x xs ih =>
      rw [idxOf]
      split
      · simp
      · rename_i hne
        have : a ∈ xs := by
          rcases List.mem_cons.mp h with h1 | h1
          · exact absurd (beq_iff_eq.mpr h1.symm) hne
          · exact h1
        rw [List.length_cons]
        exact Nat.succ_lt_succ (ih this)

theorem filter_length_mono {α : Type} {p q : α → Bool} (l : List α)
    (h : ∀ a ∈ l, p a = true → q a = true) :
    (l.filter p).length ≤ (l.filter q).length := by
  induction l with
  | nil => exact Nat.le_refl _
  | cons x xs ih =>
      rw [List.filter_cons, List.filter_cons]
      have ihx := ih (fun a ha => h a (List.mem_cons_of_mem _ ha))
      split
      · rename_i hp
        rw [if_pos (h x (by simp) hp), List.length_cons, List.length_cons]
        exact Nat.succ_le_succ ihx
      · split
        · rw [List.length_cons]
          exact Nat.le_succ_of_le ihx
        · exact ihx

theorem parentsOutside_nil (g : List (String × List String)) (t : String) :
    parentsOutside g [] t = parentsCount g t := by
  rw [parentsOutside, parentsCount]
  congr 1
  apply List.filter_congr
  intro pc _
  simp [List.contains]

theorem parentsOutside_mono (g : List (String × List String)) {s s' : List String}
    (h : ∀ a ∈ s, a ∈ s') (t : String) :
    parentsOutside g s' t ≤ parentsOutside g s t := by
  rw [parentsOutside, parentsOutside]
  apply filter_length_mono
  intro pc _ hp
  rw [Bool.and_eq_true] at hp
  rw [Bool.and_eq_true]
  refine ⟨hp.1, ?_⟩
  rw [Bool.not_eq_true'] at hp ⊢
  cases hc : s.contains pc.1 with
  | true => exact absurd (contains_iff.mpr (h _ (contains_iff.mp hc))) (by rw [hp.2]; simp)
  | false => rfl

theorem parentsOutside_zero_mem {g : List (String × List String)} {s : List String}
    {p t : String} (h : parentsOutside g s t = 0) (hp : isParentB g p t = true) : p ∈ s := by
  rw [isParentB, graphGet] at hp
  cases hd : dictGet? g p with
  | none => rw [hd] at hp; simp [List.contains] at hp
  | some cs0 =>
      rw [hd] at hp
      by_contra hps
      have hmem : (p, cs0) ∈ g.filter (fun pc => pc.2.contains t && !(s.contains pc.1)) := by
        rw [List.mem_filter]
        refine ⟨dictGet_some_mem hd, ?_⟩
        rw [Bool.and_eq_true]
        refine ⟨hp, ?_⟩
        cases hc : s.contains p with
        | true => exact absurd (contains_iff.mp hc) hps
        | false => rfl
      rw [parentsOutside] at h
      rw [List.length_eq_zero] at h
      rw [h] at hmem
      simp at hmem

theorem parentsOutside_pos_ex {g : List (String × List String)} {s : List String}
    {t : String} (h : parentsOutside g s t ≠ 0) :
    ∃ pc ∈ g, pc.2.contains t = true ∧ pc.1 ∉ s := by
  rw [parentsOutside] at h
  have hne : g.filter (fun pc => pc.2.contains t && !(s.contains pc.1)) ≠ [] := by
    intro hnil
    rw [hnil] at h
    exact h rfl
  obtain ⟨pc, hpc⟩ := List.exists_mem_of_ne_nil _ hne
  have hcond := List.of_mem_filter hpc
  rw [Bool.and_eq_true] at hcond
  refine ⟨pc, List.mem_of_mem_filter hpc, hcond.1, ?_⟩
  intro hmem
  have h2 := hcond.2
  rw [contains_iff.mpr hmem] at h2
  simp at h2

theorem parentsOutside_congr_keys (s : List String) (current t : String) :
    ∀ (g : List (String × List String)), (∀ pc ∈ g, pc.1 ≠ current) →
      parentsOutside g (s ++ [current]) t = parentsOutside g s t := by
  intro g
  induction g with
  | nil => intro _; rfl
  | cons pc rest ih =>
      intro hk
      rw [parentsOutside, parentsOutside, List.filter_cons, List.filter_cons,
        contains_append_ne (hk pc (by simp))]
      have ihr := ih (fun x hx => hk x (List.mem_cons_of_mem _ hx))
      rw [parentsOutside, parentsOutside] at ihr
      split
      · rw [List.length_cons, List.length_cons, ihr]
      · exact ihr

theorem parentsOutside_pop {g : List (String × List String)} {s : List String}
    {current t : String} {cs0 : List String}
    (hgN : (g.map Prod.fst).Nodup) (hmem : (current, cs0) ∈ g)
    (ht : cs0.contains t = true) (hcur : current ∉ s) :
    parentsOutside g (s ++ [current]) t + 1 = parentsOutside g s t := by
  induction g with
  | nil => simp at hmem
  | cons pc rest ih =>
      rw [List.map_cons, List.nodup_cons] at hgN
      rcases List.mem_cons.mp hmem with hm | hm
      · have hrest : ∀ pc' ∈ rest, pc'.1 ≠ current := by
          intro pc' hpc' he
          apply hgN.1
          rw [← hm]
          dsimp only
          rw [← he]
          exact List.mem_map.mpr ⟨pc', hpc', rfl⟩
        rw [parentsOutside, parentsOutside, List.filter_cons, List.filter_cons]
        have hsc : s.contains current = false := by
          cases hc : s.contains current with
          | true => exact absurd (contains_iff.mp hc) hcur
          | false => rfl
        have hc1 : (pc.2.contains t && !(s.contains pc.1)) = true := by
          rw [← hm]
          dsimp only
          rw [ht, hsc]
          rfl
        have hc2 : (pc.2.contains t && !((s ++ [current]).contains pc.1)) = false := by
          rw [← hm]
          dsimp only
          rw [contains_iff.mpr (show current ∈ s ++ [current] by simp), Bool.not_true,
            Bool.and_false]
        rw [hc1, hc2, if_pos rfl, if_neg (by simp), List.length_cons]
        have := parentsOutside_congr_keys s current t rest hrest
        rw [parentsOutside, parentsOutside] at this
        rw [this]
      · have hpcne : pc.1 ≠ current := by
          intro he
          apply hgN.1
          rw [← he] at hm
          exact List.mem_map.mpr ⟨_, hm, rfl⟩
        rw [parentsOutside, parentsOutside, List.filter_cons, List.filter_cons,
          contains_append_ne hpcne]
        have ihr := ih hgN.2 hm
        rw [parentsOutside, parentsOutside] at ihr
        split
        · rw [List.length_cons, List.length_cons]
          omega
        · exact ihr

theorem parentsOutside_pop_other {g : List (String × List String)} {s : List String}
    {current t : String}
    (h : ∀ cs0, (current, cs0) ∈ g → cs0.contains t = false) :
    parentsOutside g (s ++ [current]) t = parentsOutside g s t := by
  induction g with
  | nil => rfl
  | cons pc rest ih =>
      rw [parentsOutside, parentsOutside, List.filter_cons, List.filter_cons]
      have hh : (pc.2.contains t && !((s ++ [current]).contains pc.1)) =
          (pc.2.contains t && !(s.contains pc.1)) := by
        by_cases hp : pc.1 = current
        · have : pc.2.contains t = false := by
            apply h
            rw [← hp]
            exact List.mem_cons_self _ _
          rw [this]
          simp
        · rw [contains_append_ne hp]
      have ihr := ih (fun cs0 hcs0 => h cs0 (List.mem_cons_of_mem _ hcs0))
      rw [parentsOutside, parentsOutside] at ihr
      rw [hh]
      split
      · rw [List.length_cons, List.length_cons, ihr]
      · exact ihr

theorem beq_shift (a : Int) : ((a + (-1)) == 0) = (a == 1) := by
  by_cases h : a = 1
  · subst h
    decide
  · have h1 : ¬(a + (-1) = 0) := by omega
    rw [beq_eq_false_iff_ne.mpr h1, beq_eq_false_iff_ne.mpr h]

theorem kahnRelease : ∀ (cs : List String), cs.Nodup →
    ∀ (q0 : List String) (deg0 : List (String × Int)),
      (cs.foldl
        (fun (qd : List String × List (String × Int)) dependent =>
          let deg' := degAdd qd.2 dependent (-1)
          if degGet deg' dependent == 0 then (qd.1 ++ [dependent], deg')
          else (qd.1, deg'))
        (q0, deg0)).1 = q0 ++ cs.filter (fun c => degGet deg0 c == 1) ∧
      ∀ x, degGet (cs.foldl
        (fun (qd : List String × List (String × Int)) dependent =>
          let deg' := degAdd qd.2 dependent (-1)
          if degGet deg' dependent == 0 then (qd.1 ++ [dependent], deg')
          else (qd.1, deg'))
        (q0, deg0)).2 x = degGet deg0 x - (if cs.contains x then 1 else 0) := by
  intro cs
  induction cs with
  | nil =>
      intro _ q0 deg0
      refine ⟨by simp, fun x => by simp [List.contains]⟩
  | cons c cs' ih =>
      intro hN q0 deg0
      rw [List.nodup_cons] at hN
      rw [List.foldl_cons]
      have hstep : (let deg' := degAdd (q0, deg0).2 c (-1)
          if degGet deg' c == 0 then ((q0, deg0).1 ++ [c], deg')
          else ((q0, deg0).1, deg')) =
          (if degGet deg0 c == 1 then q0 ++ [c] else q0, degAdd deg0 c (-1)) := by
        dsimp only
        rw [degGet_degAdd_self, beq_shift]
        split
        · rfl
        · rfl
      rw [hstep]
      obtain ⟨ihq, ihd⟩ := ih hN.2 (if degGet deg0 c == 1 then q0 ++ [c] else q0)
        (degAdd deg0 c (-1))
      have hfil : cs'.filter (fun c' => degGet (degAdd deg0 c (-1)) c' == 1) =
          cs'.filter (fun c' => degGet deg0 c' == 1) := by
        apply List.filter_congr
        intro c' hc'
        rw [degGet_degAdd_ne deg0 c c' (-1) (fun he => hN.1 (he ▸ hc'))]
      constructor
      · rw [ihq, hfil, List.filter_cons]
        split
        · rw [List.append_assoc]
          rfl
        · rfl
      · intro x
        rw [ihd x, List.contains_cons]
        by_cases hx : x = c
        · subst hx
          rw [degGet_degAdd_self]
          have hx1 : cs'.contains x = false := by
            cases hc : cs'.contains x with
            | true => exact absurd (contains_iff.mp hc) hN.1
            | false => rfl
          rw [hx1]
          simp
          omega
        · rw [degGet_degAdd_ne deg0 c x (-1) hx]
          have : (x == c) = false := beq_eq_false_iff_ne.mpr hx
          rw [this]
          simp

theorem nodup_subset_length_le : ∀ {l₁ l₂ : List String}, l₁.Nodup →
    (∀ a ∈ l₁, a ∈ l₂) → l₁.length ≤ l₂.length := by
  intro l₁
  induction l₁ with
  | nil => intro l₂ _ _; exact Nat.zero_le _
  | cons x xs ih =>
      intro l₂ hN hsub
      rw [List.nodup_cons] at hN
      have hx : x ∈ l₂ := hsub x (by simp)
      have hsub' : ∀ a ∈ xs, a ∈ l₂.erase x := by
        intro a ha
        exact (List.mem_erase_of_ne (fun he => hN.1 (by rw [← he]; exact ha))).mpr
          (hsub a (List.mem_cons_of_mem _ ha))
      have hih := ih hN.2 hsub'
      have hlen := List.length_erase_of_mem hx
      have hpos : 0 < l₂.length := by
        cases l₂ with
        | nil => simp at hx
        | cons b bs => simp
      rw [List.length_cons]
      omega

/-- Kahn's loop, verified: starting from a state whose in-degrees track the
number of not-yet-emitted recorded parents, the loop emits a duplicate-free
order of exactly the tracked nodes in which every recorded parent precedes
each of its dependents (given an acyclicity ranking and enough fuel). -/
theorem kahnLoop_spec (g : List (String × List String)) (K : List String)
    (rank : String → Nat)
    (hgN : (g.map Prod.fst).Nodup)
    (hgsub : ∀ pc ∈ g, pc.1 ∈ K ∧ pc.2.Nodup ∧ ∀ c ∈ pc.2, c ∈ K)
    (hrank : ∀ pc ∈ g, ∀ c ∈ pc.2, rank pc.1 < rank c) :
    ∀ (fuel : Nat) (q s : List String) (deg : List (String × Int)),
      (s ++ q).Nodup →
      (∀ t ∈ s ++ q, t ∈ K) →
      (∀ t ∈ K, degGet deg t = (parentsOutside g s t : Int)) →
      (∀ t ∈ s ++ q, parentsOutside g s t = 0) →
      (∀ t ∈ K, t ∉ s → t ∉ q → parentsOutside g s t ≠ 0) →
      (∀ p t, isParentB g p t = true → t ∈ s → p ∈ s ∧ idxOf p s < idxOf t s) →
      K.length + 1 ≤ fuel + s.length →
      (kahnLoop g fuel q deg s).1.Nodup ∧
      (∀ t ∈ (kahnLoop g fuel q deg s).1, t ∈ K) ∧
      (∀ t ∈ K, t ∈ (kahnLoop g fuel q deg s).1) ∧
      (∀ p t, isParentB g p t = true → t ∈ (kahnLoop g fuel q deg s).1 →
        p ∈ (kahnLoop g fuel q deg s).1 ∧
        idxOf p (kahnLoop g fuel q deg s).1 < idxOf t (kahnLoop g fuel q deg s).1) := by
  intro fuel
  induction fuel with
  | zero =>
      intro q s deg h1 h2 _ _ _ _ hfuel
      exfalso
      have hsN : s.Nodup := (List.nodup_append.mp h1).1
      have hle := nodup_subset_length_le hsN (fun a ha => h2 a (List.mem_append_left _ ha))
      omega
  | succ fuel ih =>
      intro q s deg h1 h2 h3 h4 h5 h6 hfuel
      cases q with
      | nil =>
          show (s, deg).1.Nodup ∧ _
          have hcomp : ∀ t ∈ K, t ∈ s := by
            have key : ∀ n t', t' ∈ K → t' ∉ s → rank t' ≠ n := by
              intro n
              induction n using Nat.strong_induction_on with
              | _ n ihn =>
                  intro t' ht'K ht's hrt
                  have hz := h5 t' ht'K ht's (by simp)
                  obtain ⟨pc, hpcg, hct, hps⟩ := parentsOutside_pos_ex hz
                  have hpK := (hgsub pc hpcg).1
                  have hrlt := hrank pc hpcg t' (contains_iff.mp hct)
                  exact ihn (rank pc.1) (by omega) pc.1 hpK hps rfl
            intro t htK
            by_contra hts
            exact key (rank t) t htK hts rfl
          refine ⟨by simpa using h1, fun t ht => h2 t (by simpa using ht), hcomp, ?_⟩
          intro p t hpt hts
          exact h6 p t hpt hts
      | cons current rest =>
          have hcurK : current ∈ K :=
            h2 current (List.mem_append_right _ (List.mem_cons_self _ _))
          have hnodups := List.nodup_append.mp h1
          have hcurNotS : current ∉ s := by
            intro hcon
            exact (hnodups.2.2 hcon) (List.mem_cons_self _ _)
          have hggN : (graphGet g current).Nodup := by
            rw [graphGet]
            cases hdg : dictGet? g current with
            | none => simp
            | some cs0 => exact (hgsub _ (dictGet_some_mem hdg)).2.1
          have hggK : ∀ x ∈ graphGet g current, x ∈ K := by
            rw [graphGet]
            cases hdg : dictGet? g current with
            | none => simp
            | some cs0 =>
                intro x hx
                exact (hgsub _ (dictGet_some_mem hdg)).2.2 x (by simpa using hx)
          have hcsperm := pySorted_perm (graphGet g current)
          have hcsN : (pySorted (graphGet g current)).Nodup := hcsperm.nodup_iff.mpr hggN
          have hcsmem : ∀ x, x ∈ pySorted (graphGet g current) ↔ isParentB g current x = true := by
            intro x
            rw [hcsperm.mem_iff, isParentB]
            exact ⟨fun h => contains_iff.mpr h, fun h => contains_iff.mp h⟩
          have hcsb : ∀ x, (pySorted (graphGet g current)).contains x = isParentB g current x := by
            intro x
            cases hi : isParentB g current x with
            | true => exact contains_iff.mpr ((hcsmem x).mpr hi)
            | false =>
                cases hc : (pySorted (graphGet g current)).contains x with
                | false => rfl
                | true => exact absurd ((hcsmem x).mp (contains_iff.mp hc)) (by rw [hi]; simp)
          have hparent_entry : ∀ t, isParentB g current t = true →
              ∃ cs0, dictGet? g current = some cs0 ∧ cs0.contains t = true := by
            intro t hp
            rw [isParentB, graphGet] at hp
            cases hdg : dictGet? g current with
            | none => rw [hdg] at hp; simp [List.contains] at hp
            | some cs0 => rw [hdg] at hp; exact ⟨cs0, rfl, hp⟩
          have hnoparent_entry : ∀ t, isParentB g current t = false →
              ∀ cs0, (current, cs0) ∈ g → cs0.contains t = false := by
            intro t hp cs0 hmem
            have := dictGet_nodup_mem hgN hmem
            rw [isParentB, graphGet, this] at hp
            exact hp
          obtain ⟨hq1, hd1⟩ := kahnRelease (pySorted (graphGet g current)) hcsN rest deg
          -- parentsOutside transitions
          have hPOpop : ∀ t, isParentB g current t = true →
              parentsOutside g (s ++ [current]) t + 1 = parentsOutside g s t := by
            intro t hp
            obtain ⟨cs0, hdg, hct⟩ := hparent_entry t hp
            exact parentsOutside_pop hgN (dictGet_some_mem hdg) hct hcurNotS
          have hPOother : ∀ t, isParentB g current t = false →
              parentsOutside g (s ++ [current]) t = parentsOutside g s t := by
            intro t hp
            exact parentsOutside_pop_other (hnoparent_entry t hp)
          -- new invariants
          have inv3' : ∀ t ∈ K, degGet (((pySorted (graphGet g current)).foldl
              (fun (qd : List String × List (String × Int)) dependent =>
                let deg' := degAdd qd.2 dependent (-1)
                if degGet deg' dependent == 0 then (qd.1 ++ [dependent], deg')
                else (qd.1, deg'))
              (rest, deg)).2) t = (parentsOutside g (s ++ [current]) t : Int) := by
            intro t htK
            rw [hd1 t, hcsb t, h3 t htK]
            by_cases hp : isParentB g current t = true
            · rw [if_pos hp]
              have hpo := hPOpop t hp
              omega
            · rw [if_neg hp]
              have hp' : isParentB g current t = false := by
                cases hi : isParentB g current t
                · rfl
                · exact absurd hi hp
              have hpo := hPOother t hp'
              omega
          have inv1' : ((s ++ [current]) ++ (rest ++
              (pySorted (graphGet g current)).filter (fun c => degGet deg c == 1))).Nodup := by
            have e1 : (s ++ [current]) ++ (rest ++
                (pySorted (graphGet g current)).filter (fun c => degGet deg c == 1)) =
                (s ++ current :: rest) ++
                (pySorted (graphGet g current)).filter (fun c => degGet deg c == 1) := by
              simp [List.append_assoc]
            rw [e1]
            apply List.nodup_append.mpr
            refine ⟨h1, List.Nodup.filter _ hcsN, ?_⟩
            intro a ha hanew
            have hdega := List.of_mem_filter hanew
            have hdega' : degGet deg a = 1 := eq_of_beq hdega
            have haK := h2 a ha
            have hz := h4 a ha
            have h3a := h3 a haK
            omega
          have inv2' : ∀ t ∈ (s ++ [current]) ++ (rest ++
              (pySorted (graphGet g current)).filter (fun c => degGet deg c == 1)), t ∈ K := by
            intro t ht
            rcases List.mem_append.mp ht with h | h
            · rcases List.mem_append.mp h with h | h
              · exact h2 t (List.mem_append_left _ h)
              · have : t = current := by simpa using h
                rw [this]
                exact hcurK
            · rcases List.mem_append.mp h with h | h
              · exact h2 t (List.mem_append_right _ (List.mem_cons_of_mem _ h))
              · have := List.mem_of_mem_filter h
                exact hggK t (hcsperm.mem_iff.mp this)
          have inv4' : ∀ t ∈ (s ++ [current]) ++ (rest ++
              (pySorted (graphGet g current)).filter (fun c => degGet deg c == 1)),
              parentsOutside g (s ++ [current]) t = 0 := by
            intro t ht
            have hmono := @parentsOutside_mono g s (s ++ [current])
              (fun a ha => List.mem_append_left _ ha) t
            rcases List.mem_append.mp ht with h | h
            · rcases List.mem_append.mp h with h | h
              · have := h4 t (List.mem_append_left _ h)
                omega
              · have hc : t = current := by simpa using h
                have := h4 t (by rw [hc]; exact List.mem_append_right _ (List.mem_cons_self _ _))
                omega
            · rcases List.mem_append.mp h with h | h
              · have := h4 t (List.mem_append_right _ (List.mem_cons_of_mem _ h))
                omega
              · have htK : t ∈ K := hggK t (hcsperm.mem_iff.mp (List.mem_of_mem_filter h))
                have h31 := inv3' t htK
                have hdt0 := List.of_mem_filter h
                have hdt : degGet deg t = 1 := eq_of_beq hdt0
                have hcont : (pySorted (graphGet g current)).contains t = true :=
                  contains_iff.mpr (List.mem_of_mem_filter h)
                have hfold := hd1 t
                rw [hcont, if_pos rfl] at hfold
                omega
          have inv5' : ∀ t ∈ K, t ∉ s ++ [current] →
              t ∉ rest ++ (pySorted (graphGet g current)).filter (fun c => degGet deg c == 1) →
              parentsOutside g (s ++ [current]) t ≠ 0 := by
            intro t htK hts1 htq
            have hts : t ∉ s := fun h => hts1 (List.mem_append_left _ h)
            have htc : t ≠ current := fun he => hts1 (by rw [he]; simp)
            have htrest : t ∉ rest := fun h => htq (List.mem_append_left _ h)
            have htnew : t ∉ (pySorted (graphGet g current)).filter
                (fun c => degGet deg c == 1) := fun h => htq (List.mem_append_right _ h)
            have hold := h5 t htK hts (by
              intro h
              rcases List.mem_cons.mp h with h | h
              · exact htc h
              · exact htrest h)
            by_cases hp : isParentB g current t = true
            · have hpo := hPOpop t hp
              have htcs : t ∈ pySorted (graphGet g current) := (hcsmem t).mpr hp
              have hne1 : degGet deg t ≠ 1 := by
                intro he
                exact htnew (List.mem_filter.mpr ⟨htcs, by rw [he]; rfl⟩)
              have h3t := h3 t htK
              omega
            · have hp' : isParentB g current t = false := by
                cases hi : isParentB g current t
                · rfl
                · exact absurd hi hp
              rw [hPOother t hp']
              exact hold
          have inv6' : ∀ p t, isParentB g p t = true → t ∈ s ++ [current] →
              p ∈ s ++ [current] ∧ idxOf p (s ++ [current]) < idxOf t (s ++ [current]) := by
            intro p t hpt ht
            rcases List.mem_append.mp ht with hts | htc
            · obtain ⟨hps, hidx⟩ := h6 p t hpt hts
              refine ⟨List.mem_append_left _ hps, ?_⟩
              rw [idxOf_append_left [current] hps, idxOf_append_left [current] hts]
              exact hidx
            · have htc2 : t = current := by simpa using htc
              subst htc2
              have hPO0 : parentsOutside g s t = 0 :=
                h4 t (List.mem_append_right _ (List.mem_cons_self _ _))
              have hps : p ∈ s := parentsOutside_zero_mem hPO0 hpt
              refine ⟨List.mem_append_left _ hps, ?_⟩
              rw [idxOf_append_left [t] hps, idxOf_append_self hcurNotS]
              exact idxOf_lt_length hps
          have fuel' : K.length + 1 ≤ fuel + (s ++ [current]).length := by
            rw [List.length_append]
            simp only [List.length_cons, List.length_nil]
            omega
          rw [kahnLoop]
          dsimp only
          rw [hq1]
          exact ih _ _ _ inv1' inv2' inv3' inv4' inv5' inv6' fuel'

/-- Claim C3 (counterexample): on `doubleFkTables` — acyclic, as the ranking
certifies, with `b_mid` holding two FKs to the same parent — the sort emits the
child `a_kid` before its parent `b_mid`: the double-counted in-degree of
`b_mid` never reaches zero and only the lexicographic fallback emits it. -/
theorem C3_counterexample :
    sort_tables_by_fk_dependency doubleFkTables none = ["p_root", "a_kid", "b_mid"] ∧
    (∀ e ∈ graphEdges (fkGraphStep1 doubleFkTables).1, doubleFkRank e.1 < doubleFkRank e.2) ∧
    ("b_mid", "a_kid") ∈ graphEdges (fkGraphStep1 doubleFkTables).1 ∧
    idxOf "a_kid" (sort_tables_by_fk_dependency doubleFkTables none) <
      idxOf "b_mid" (sort_tables_by_fk_dependency doubleFkTables none) := by
  refine ⟨by decide, by decide, by decide, by decide⟩

/-- Claim C3 (amended): whenever the in-degrees of the built graph — step 1
over per-column FKs plus, when supplied, step 2 over composite FKs (whose
membership guard already deduplicates) — agree with the number of distinct
recorded parents (true exactly when no table carries two single-column FK
columns referencing one parent), the parents are themselves tracked tables,
names are duplicate-free and a ranking certifies the reference graph acyclic,
`sort_tables_by_fk_dependency` returns every table exactly once with every
referenced (parent) table strictly before every table that references it. -/
theorem C3_fk_sort_parents_first (tables_metadata : List (String × List Column))
    (composite_fks : Option (List (String × List FKInfo))) (rank : String → Nat)
    (hnodup : (dictKeys tables_metadata).Nodup)
    (hgN : (((fkGraph tables_metadata composite_fks).1).map Prod.fst).Nodup)
    (hgsub : ∀ pc ∈ (fkGraph tables_metadata composite_fks).1,
      pc.1 ∈ dictKeys tables_metadata ∧ pc.2.Nodup ∧
      ∀ c ∈ pc.2, c ∈ dictKeys tables_metadata)
    (hdegkeys : ∀ t ∈ dictKeys tables_metadata,
      degGet (fkGraph tables_metadata composite_fks).2 t =
        (parentsCount (fkGraph tables_metadata composite_fks).1 t : Int))
    (hrank : ∀ e ∈ graphEdges (fkGraph tables_metadata composite_fks).1,
      rank e.1 < rank e.2) :
    (sort_tables_by_fk_dependency tables_metadata composite_fks).Nodup ∧
    (∀ t, t ∈ sort_tables_by_fk_dependency tables_metadata composite_fks ↔
      t ∈ dictKeys tables_metadata) ∧
    (∀ e ∈ graphEdges (fkGraph tables_metadata composite_fks).1,
      idxOf e.1 (sort_tables_by_fk_dependency tables_metadata composite_fks) <
      idxOf e.2 (sort_tables_by_fk_dependency tables_metadata composite_fks)) := by
  have hrank' : ∀ pc ∈ (fkGraph tables_metadata composite_fks).1, ∀ c ∈ pc.2,
      rank pc.1 < rank c := by
    intro pc hpc c hc
    exact hrank (pc.1, c)
      (List.mem_flatMap.mpr ⟨pc, hpc, List.mem_map.mpr ⟨c, hc, rfl⟩⟩)
  have hq0perm := pySorted_perm ((dictKeys tables_metadata).filter
    (fun t => degGet (fkGraph tables_metadata composite_fks).2 t == 0))
  have i1 : (([] : List String) ++ pySorted ((dictKeys tables_metadata).filter
      (fun t => degGet (fkGraph tables_metadata composite_fks).2 t == 0))).Nodup := by
    rw [List.nil_append]
    exact hq0perm.nodup_iff.mpr (List.Nodup.filter _ hnodup)
  have i2 : ∀ t ∈ ([] : List String) ++ pySorted ((dictKeys tables_metadata).filter
      (fun t => degGet (fkGraph tables_metadata composite_fks).2 t == 0)),
      t ∈ dictKeys tables_metadata := by
    intro t ht
    rw [List.nil_append] at ht
    exact List.mem_of_mem_filter (hq0perm.mem_iff.mp ht)
  have i3 : ∀ t ∈ dictKeys tables_metadata,
      degGet (fkGraph tables_metadata composite_fks).2 t =
        (parentsOutside (fkGraph tables_metadata composite_fks).1 [] t : Int) := by
    intro t ht
    rw [parentsOutside_nil]
    exact hdegkeys t ht
  have i4 : ∀ t ∈ ([] : List String) ++ pySorted ((dictKeys tables_metadata).filter
      (fun t => degGet (fkGraph tables_metadata composite_fks).2 t == 0)),
      parentsOutside (fkGraph tables_metadata composite_fks).1 [] t = 0 := by
    intro t ht
    rw [List.nil_append] at ht
    have hf := hq0perm.mem_iff.mp ht
    have hcond0 := List.of_mem_filter hf
    have hcond : degGet (fkGraph tables_metadata composite_fks).2 t = 0 := eq_of_beq hcond0
    have h3t := i3 t (List.mem_of_mem_filter hf)
    omega
  have i5 : ∀ t ∈ dictKeys tables_metadata, t ∉ ([] : List String) →
      t ∉ pySorted ((dictKeys tables_metadata).filter
        (fun t => degGet (fkGraph tables_metadata composite_fks).2 t == 0)) →
      parentsOutside (fkGraph tables_metadata composite_fks).1 [] t ≠ 0 := by
    intro t htK _ htq
    have hnf : t ∉ (dictKeys tables_metadata).filter
        (fun t => degGet (fkGraph tables_metadata composite_fks).2 t == 0) :=
      fun h => htq (hq0perm.mem_iff.mpr h)
    have hcond : ¬(degGet (fkGraph tables_metadata composite_fks).2 t == 0) = true := by
      intro hc
      exact hnf (List.mem_filter.mpr ⟨htK, hc⟩)
    have hne : degGet (fkGraph tables_metadata composite_fks).2 t ≠ 0 := by
      intro he
      exact hcond (by rw [he]; rfl)
    have h3t := i3 t htK
    omega
  have i6 : ∀ p t, isParentB (fkGraph tables_metadata composite_fks).1 p t = true →
      t ∈ ([] : List String) → p ∈ ([] : List String) ∧
      idxOf p ([] : List String) < idxOf t ([] : List String) := by
    intro p t _ ht
    simp at ht
  have ifuel : (dictKeys tables_metadata).length + 1 ≤
      (2 * (tables_metadata.length +
        (fkGraph tables_metadata composite_fks).2.length) + 1) +
        ([] : List String).length := by
    rw [dictKeys, List.length_map]
    simp only [List.length_nil]
    omega
  obtain ⟨hN2, hsub2, hcomp2, hord2⟩ := kahnLoop_spec
    (fkGraph tables_metadata composite_fks).1
    (dictKeys tables_metadata) rank hgN hgsub hrank'
    (2 * (tables_metadata.length + (fkGraph tables_metadata composite_fks).2.length) + 1)
    (pySorted ((dictKeys tables_metadata).filter
      (fun t => degGet (fkGraph tables_metadata composite_fks).2 t == 0)))
    [] (fkGraph tables_metadata composite_fks).2 i1 i2 i3 i4 i5 i6 ifuel
  have hlen : tables_metadata.length ≤
      (kahnLoop (fkGraph tables_metadata composite_fks).1
        (2 * (tables_metadata.length +
          (fkGraph tables_metadata composite_fks).2.length) + 1)
        (pySorted ((dictKeys tables_metadata).filter
          (fun t => degGet (fkGraph tables_metadata composite_fks).2 t == 0)))
        (fkGraph tables_metadata composite_fks).2 []).1.length := by
    have := nodup_subset_length_le hnodup hcomp2
    rw [dictKeys, List.length_map] at this
    exact this
  have hout : sort_tables_by_fk_dependency tables_metadata composite_fks =
      (kahnLoop (fkGraph tables_metadata composite_fks).1
        (2 * (tables_metadata.length +
          (fkGraph tables_metadata composite_fks).2.length) + 1)
        (pySorted ((dictKeys tables_metadata).filter
          (fun t => degGet (fkGraph tables_metadata composite_fks).2 t == 0)))
        (fkGraph tables_metadata composite_fks).2 []).1 := by
    cases composite_fks with
    | none =>
        rw [sort_tables_by_fk_dependency]
        dsimp only [fkGraph] at hlen ⊢
        rw [if_neg (by omega)]
    | some fks =>
        rw [sort_tables_by_fk_dependency]
        dsimp only [fkGraph] at hlen ⊢
        rw [if_neg (by omega)]
  rw [hout]
  refine ⟨hN2, fun t => ⟨fun h => hsub2 t h, fun h => hcomp2 t h⟩, ?_⟩
  intro e he
  obtain ⟨pc, hpc, he2⟩ := List.mem_flatMap.mp he
  obtain ⟨c, hc, hec⟩ := List.mem_map.mp he2
  rw [← hec]
  have hip : isParentB (fkGraph tables_metadata composite_fks).1 pc.1 c = true := by
    rw [isParentB, graphGet, dictGet_nodup_mem hgN hpc]
    exact contains_iff.mpr hc
  have hcK : c ∈ dictKeys tables_metadata := (hgsub pc hpc).2.2 c hc
  exact (hord2 pc.1 c hip (hcomp2 c hcK)).2

/-- Witness for the amended C3 on a three-table input mixing a per-column FK
(`child` → `root`) with a composite FK (`mid` → `root`) whose in-degree
accounting is exact. -/
theorem C3_fk_sort_parents_first_witness :
    ((dictKeys [("child", [plainCol "p" "integer" (some ⟨"root", "id", "a", "a"⟩)]),
        ("mid", [plainCol "m" "integer" none]),
        ("root", [plainCol "id" "integer" none])]).Nodup) ∧
    ((((fkGraph [("child", [plainCol "p" "integer" (some ⟨"root", "id", "a", "a"⟩)]),
        ("mid", [plainCol "m" "integer" none]), ("root", [plainCol "id" "integer" none])]
        (some [("mid", [FKInfo.mk "mid_root_fk" ["m", "m2"] "root" ["id", "id2"] "a" "a"])])).1).map
        Prod.fst).Nodup) ∧
    ((sort_tables_by_fk_dependency
        [("child", [plainCol "p" "integer" (some ⟨"root", "id", "a", "a"⟩)]),
         ("mid", [plainCol "m" "integer" none]), ("root", [plainCol "id" "integer" none])]
        (some [("mid", [FKInfo.mk "mid_root_fk" ["m", "m2"] "root" ["id", "id2"] "a" "a"])])).Nodup ∧
      (∀ t, t ∈ sort_tables_by_fk_dependency
          [("child", [plainCol "p" "integer" (some ⟨"root", "id", "a", "a"⟩)]),
           ("mid", [plainCol "m" "integer" none]), ("root", [plainCol "id" "integer" none])]
          (some [("mid", [FKInfo.mk "mid_root_fk" ["m", "m2"] "root" ["id", "id2"] "a" "a"])]) ↔
        t ∈ dictKeys [("child", [plainCol "p" "integer" (some ⟨"root", "id", "a", "a"⟩)]),
          ("mid", [plainCol "m" "integer" none]),
          ("root", [plainCol "id" "integer" none])]) ∧
      (∀ e ∈ graphEdges (fkGraph
          [("child", [plainCol "p" "integer" (some ⟨"root", "id", "a", "a"⟩)]),
           ("mid", [plainCol "m" "integer" none]), ("root", [plainCol "id" "integer" none])]
          (some [("mid", [FKInfo.mk "mid_root_fk" ["m", "m2"] "root" ["id", "id2"] "a" "a"])])).1,
        idxOf e.1 (sort_tables_by_fk_dependency
          [("child", [plainCol "p" "integer" (some ⟨"root", "id", "a", "a"⟩)]),
           ("mid", [plainCol "m" "integer" none]), ("root", [plainCol "id" "integer" none])]
          (some [("mid", [FKInfo.mk "mid_root_fk" ["m", "m2"] "root" ["id", "id2"] "a" "a"])])) <
        idxOf e.2 (sort_tables_by_fk_dependency
          [("child", [plainCol "p" "integer" (some ⟨"root", "id", "a", "a"⟩)]),
           ("mid", [plainCol "m" "integer" none]), ("root", [plainCol "id" "integer" none])]
          (some [("mid", [FKInfo.mk "mid_root_fk" ["m", "m2"] "root" ["id", "id2"] "a" "a"])])))) :=
  ⟨by decide, by decide,
   C3_fk_sort_parents_first
     [("child", [plainCol "p" "integer" (some ⟨"root", "id", "a", "a"⟩)]),
      ("mid", [plainCol "m" "integer" none]), ("root", [plainCol "id" "integer" none])]
     (some [("mid", [FKInfo.mk "mid_root_fk" ["m", "m2"] "root" ["id", "id2"] "a" "a"])])
     (fun t => if t == "root" then 0 else 1)
     (by decide) (by decide) (by decide) (by decide) (by decide)⟩

/-- Witness for C10 at a concrete table whose column list has no `id`. -/
theorem C10_insert_sql_fixed_conflict_clause_witness :
    ("id" ∉ ["sku", "label"]) ∧
    "ON CONFLICT (id) DO NOTHING".data <:+:
      (migrate_single_table_insert_sql "catalog" ["sku", "label"]).data :=
  ⟨by decide, C10_insert_sql_fixed_conflict_clause "catalog" ["sku", "label"] (by decide)⟩

end PgSchemaSync
